import Mathlib

/-!
# Verification of the vue-study reactive core

A shallow embedding, in Lean 4, of the parts of the repository that the
frozen claims are about:

* the `NaN`-aware change test `hasChanged` and the reactive property setter
  (`src/shared/constants.ts`, observer `defineReactive` in the observer
  module);
* the dotted-path getter `parsePath` and the watcher-constructor fallback
  (`src/core/util/lang.ts`, `src/core/observer/watcher.ts`);
* the explicit `set` / `del` operations of the observer module;
* the watcher scheduler (`src/core/observer/scheduler.ts`): `queueWatcher`,
  `flushSchedulerQueue`, `sortCompareFn` and the `MAX_UPDATE_COUNT` guard;
* the virtual-DOM reconciler (`patch.ts`): `sameVnode`, `createKeyToOldIdx`,
  `findIdxInOld`, `createElm`, `patchVnode`, `updateChildren`.

JavaScript values are modelled by explicit inductive types (`JSNum`,
`JSValue`, …); machine-level floating point is only needed for the three
distinguished points `NaN`, `+0` and `-0`, which the model carries as
constructors.  Stateful code is modelled by explicit state passing; DOM
mutation is modelled by an operation log over a container/child-list map.
Fallible or out-of-model situations (a JavaScript `TypeError`, running out
of fuel) are returned as `Option`/explicit outcome values.
-/

namespace VueStudy

/-! ## JavaScript numbers and values

`JSNum` models the IEEE doubles the reactivity claims care about: `nan`,
negative zero, and everything else (represented by an integer; `real 0` is
positive zero).  Strict equality `===` identifies `-0` with `+0` and makes
`NaN` unequal to itself, exactly as in JavaScript. -/

inductive JSNum : Type where
  | nan : JSNum
  | negZero : JSNum
  | real : Int → JSNum
deriving DecidableEq, Repr

/-- JavaScript `===` on numbers: `NaN === x` is false for every `x`
(including `NaN`), and `-0 === +0` is true. -/
def JSNum.seq : JSNum → JSNum → Bool
  | .nan, _ => false
  | _, .nan => false
  | .negZero, .negZero => true
  | .negZero, .real q => q == 0
  | .real q, .negZero => q == 0
  | .real a, .real b => a == b

/-- A JavaScript value, as far as the reactivity layer observes it.
Objects are identified by an allocation id (`obj i`), so `obj i === obj j`
iff `i = j` — reference equality. -/
inductive JSValue : Type where
  | undefined : JSValue
  | nul : JSValue
  | bool : Bool → JSValue
  | num : JSNum → JSValue
  | str : String → JSValue
  | obj : Nat → JSValue
deriving DecidableEq, Repr

/-- JavaScript strict equality `===` on `JSValue`. -/
def strictEq : JSValue → JSValue → Bool
  | .undefined, .undefined => true
  | .nul, .nul => true
  | .bool a, .bool b => a == b
  | .num a, .num b => a.seq b
  | .str a, .str b => a == b
  | .obj a, .obj b => a == b
  | _, _ => false

/-- Is the value negative zero?  `1/x` for a zero `x` is `-Infinity` exactly
when `x` is `-0`, so under the guard `x === y && x === 0` of `hasChanged`,
`1/x !== 1/y` holds iff exactly one of the two zeros is negative. -/
def isNegZero : JSValue → Bool
  | .num .negZero => true
  | _ => false

/-- Embeds `hasChanged` from `src/shared/constants.ts`:
```js
export function hasChanged(x, y) {
  if (x === y) {
    return x === 0 && 1 / x !== 1 / (y as number)
  } else {
    return x === x || y === y
  }
}
```
The `1 / x !== 1 / y` test is only reached when `x === y` and `x === 0`,
i.e. when both are zeros; there it is `isNegZero x != isNegZero y`. -/
def hasChanged (x y : JSValue) : Bool :=
  if strictEq x y then
    strictEq x (.num (.real 0)) && (isNegZero x != isNegZero y)
  else
    strictEq x x || strictEq y y

/-! ## The reactive setter (observer module, `defineReactive`)

A reactive slot holds the captured `val` of the closure together with a
ghost count of `dep.notify()` calls.  The embedded setter covers the plain
data path of `reactiveSetter` (no pre-existing getter/setter on the
property, value not a v3 `ref` — those live outside the modelled value
universe `JSValue`):
```js
set: function reactiveSetter(newVal) {
  const value = getter ? getter.call(obj) : val
  if (!hasChanged(value, newVal)) {
    return
  }
  ...
  val = newVal
  childOb = !shallow && observe(newVal, false, mock)
  dep.notify(...)
}
``` -/

structure ReactiveSlot : Type where
  val : JSValue
  notifyCount : Nat
deriving DecidableEq, Repr

/-- One invocation of the embedded `reactiveSetter`. -/
def reactiveSetter (s : ReactiveSlot) (newVal : JSValue) : ReactiveSlot :=
  if !hasChanged s.val newVal then s
  else { val := newVal, notifyCount := s.notifyCount + 1 }

/-- Spec-side equality, following the claim's words: strict equality, except
that `NaN` equals `NaN` and `+0` differs from `-0` (i.e. `Object.is`).  To
be compared with the source-side `hasChanged`. -/
def sameValueSpec (x y : JSValue) : Bool :=
  (x == .num .nan && y == .num .nan) || (strictEq x y && (isNegZero x == isNegZero y))

theorem hasChanged_self (v : JSValue) : hasChanged v v = false := by
  unfold hasChanged
  cases h : strictEq v v <;> simp [h]

theorem strictEq_refl_of_not_nan (v : JSValue) (h : v ≠ .num .nan) :
    strictEq v v = true := by
  cases v with
  | num n => cases n with
    | nan => exact absurd rfl h
    | negZero => rfl
    | real q => simp [strictEq, JSNum.seq]
  | _ => simp [strictEq]

/-- `hasChanged` is exactly the negation of the spec-side `Object.is`-style
equality. -/
theorem hasChanged_eq_not_sameValueSpec (x y : JSValue) :
    hasChanged x y = !sameValueSpec x y := by
  by_cases hx : x = .num .nan
  · subst hx
    cases y with
    | num n =>
      cases n <;> simp [hasChanged, sameValueSpec, strictEq, JSNum.seq, isNegZero]
    | _ => simp [hasChanged, sameValueSpec, strictEq, JSNum.seq, isNegZero]
  · by_cases hy : y = .num .nan
    · subst hy
      have hxx := strictEq_refl_of_not_nan x hx
      cases x with
      | num n =>
        cases n <;>
          simp_all [hasChanged, sameValueSpec, strictEq, JSNum.seq, isNegZero]
      | _ => simp_all [hasChanged, sameValueSpec, strictEq, JSNum.seq, isNegZero]
    · have hxx := strictEq_refl_of_not_nan x hx
      have hyy := strictEq_refl_of_not_nan y hy
      unfold hasChanged sameValueSpec
      cases hxy : strictEq x y with
      | false =>
        simp [hxy, hxx, hyy]
        exact Or.inl hx
      | true =>
        have hnan : (x == JSValue.num .nan && y == JSValue.num .nan) = false := by
          simp [hx]
        simp only [hxy, hnan, if_true, Bool.false_or, Bool.true_and, Bool.not_eq_true']
        -- goal: strictEq x (num (real 0)) && (isNegZero x != isNegZero y)
        --     = !(isNegZero x == isNegZero y)
        by_cases hzx : strictEq x (.num (.real 0)) = true
        · simp [hzx, Bool.not_eq_true', bne]
        · -- x is not a zero; then (since x === y and neither is NaN) neither
          -- is y a zero of the opposite sign, so the signs agree.
          have hsz : isNegZero x = isNegZero y := by
            cases x <;> cases y <;> simp_all [strictEq, isNegZero]
            case num.num a b =>
              cases a <;> cases b <;> simp_all [JSNum.seq, strictEq, isNegZero]
          simp [hzx, hsz]

/-- C5: writing a value equal to the current one (under the strict-ish
equality in which `NaN` equals `NaN`) is a no-op — the stored value is
unchanged and the dependency set is not notified — and consequently writing
the same value twice triggers at most one notification. -/
theorem C5_reactive_setter_no_op_on_equal (s : ReactiveSlot) (v : JSValue) :
    (hasChanged s.val v = false → reactiveSetter s v = s) ∧
    (reactiveSetter (reactiveSetter s v) v).notifyCount ≤ s.notifyCount + 1 := by
  constructor
  · intro h
    simp [reactiveSetter, h]
  · cases h : hasChanged s.val v with
    | false =>
      simp [reactiveSetter, h]
    | true =>
      simp [reactiveSetter, h, hasChanged_self]

/-- Witness for C5 at a concrete input: a slot holding `true`, written with
`true` twice. -/
theorem C5_reactive_setter_no_op_on_equal_witness :
    reactiveSetter ⟨.bool true, 0⟩ (.bool true) = ⟨.bool true, 0⟩ ∧
    (reactiveSetter (reactiveSetter ⟨.bool true, 0⟩ (.bool true))
        (.bool true)).notifyCount ≤ 1 :=
  ⟨(C5_reactive_setter_no_op_on_equal ⟨.bool true, 0⟩ (.bool true)).1 (by decide),
   (C5_reactive_setter_no_op_on_equal ⟨.bool true, 0⟩ (.bool true)).2⟩

/-- C9: the setter's change test treats `+0` and `-0` as different — writing
`-0` over a stored `+0` (or vice versa) stores the new zero and notifies,
even though the two compare strictly equal — and in general `hasChanged` is
the negation of strict equality amended so that `NaN` equals `NaN` and the
two zeros differ (`Object.is`). -/
theorem C9_signed_zero_is_a_change :
    (∀ n : Nat, reactiveSetter ⟨.num (.real 0), n⟩ (.num .negZero) =
        ⟨.num .negZero, n + 1⟩) ∧
    (∀ n : Nat, reactiveSetter ⟨.num .negZero, n⟩ (.num (.real 0)) =
        ⟨.num (.real 0), n + 1⟩) ∧
    strictEq (.num (.real 0)) (.num .negZero) = true ∧
    (∀ x y, hasChanged x y = !sameValueSpec x y) :=
  ⟨fun n => by simp [reactiveSetter, hasChanged, strictEq, JSNum.seq, isNegZero],
   fun n => by simp [reactiveSetter, hasChanged, strictEq, JSNum.seq, isNegZero],
   rfl,
   hasChanged_eq_not_sameValueSpec⟩

/-! ## Dotted-path watcher getters (`src/core/util/lang.ts` `parsePath`,
`src/core/observer/watcher.ts` constructor)

The watched values form a small JavaScript object universe `WVal`: plain
objects are association lists of named fields.  Property access on
primitives models the boxed access to an absent own property (yielding
`undefined`); prototype members such as `String.prototype.length` are
outside the modelled universe. -/

inductive WVal : Type where
  | undefined : WVal
  | nul : WVal
  | bool : Bool → WVal
  | num : JSNum → WVal
  | str : String → WVal
  | obj : List (String × WVal) → WVal

/-- JavaScript falsiness (`!obj`): `undefined`, `null`, `false`, `NaN`,
`±0` and the empty string are falsy; every object is truthy. -/
def jsFalsy : WVal → Bool
  | .undefined => true
  | .nul => true
  | .bool b => !b
  | .num .nan => true
  | .num .negZero => true
  | .num (.real q) => q == 0
  | .str s => s == ""
  | .obj _ => false

/-- Property access `v[name]`: field lookup on objects, `undefined` for a
missing field and for primitive receivers. -/
def jsIndex (v : WVal) (name : String) : WVal :=
  match v with
  | .obj fields => (fields.lookup name).getD .undefined
  | _ => .undefined

/-- The loop body of the closure returned by `parsePath`:
```js
return function (obj) {
  for (let i = 0; i < segments.length; i++) {
    if (!obj) return
    obj = obj[segments[i]]
  }
  return obj
}
```
The bare `return` on a falsy intermediate yields `undefined`. -/
def pathWalk : List String → WVal → WVal
  | [], v => v
  | seg :: rest, v => if jsFalsy v then .undefined else pathWalk rest (jsIndex v seg)

/-- One character of the allowed set of `bailRE`’s complement: the unicode
ranges of `unicodeRegExp` plus `.`, `$`, `_` and the digits (`\d`). -/
def pathAllowedChar (c : Char) : Bool :=
  let n := c.toNat
  (0x61 ≤ n && n ≤ 0x7A) || (0x41 ≤ n && n ≤ 0x5A) || n == 0xB7 ||
  (0xC0 ≤ n && n ≤ 0xD6) || (0xD8 ≤ n && n ≤ 0xF6) || (0xF8 ≤ n && n ≤ 0x37D) ||
  (0x37F ≤ n && n ≤ 0x1FFF) || (0x200C ≤ n && n ≤ 0x200D) ||
  (0x203F ≤ n && n ≤ 0x2040) || (0x2070 ≤ n && n ≤ 0x218F) ||
  (0x2C00 ≤ n && n ≤ 0x2FEF) || (0x3001 ≤ n && n ≤ 0xD7FF) ||
  (0xF900 ≤ n && n ≤ 0xFDCF) || (0xFDF0 ≤ n && n ≤ 0xFFFD) ||
  c == '.' || c == '$' || c == '_' || (0x30 ≤ n && n ≤ 0x39)

/-- `bailRE.test(path)`: does the path contain a character outside the
allowed set? -/
def bailTest (path : String) : Bool :=
  path.toList.any (fun c => !pathAllowedChar c)

/-- Embeds `parsePath`: bail on an illegal character (returning `undefined`,
i.e. `none`), otherwise return the segment-walking closure. -/
def parsePath (path : String) : Option (WVal → WVal) :=
  if bailTest path then none
  else some (fun v => pathWalk (path.splitOn ".") v)

/-- The result of the watcher constructor's string-expression branch:
```js
this.getter = parsePath(expOrFn)
if (!this.getter) {
  this.getter = noop
  __DEV__ && warn(`Failed watching path: ...`)
}
```
`noop` ignores its arguments and returns `undefined`. -/
structure WatcherGetter : Type where
  getter : WVal → WVal
  warned : Bool

def watcherStringGetter (path : String) : WatcherGetter :=
  match parsePath path with
  | some g => ⟨g, false⟩
  | none => ⟨fun _ => .undefined, true⟩

theorem pathWalk_undefined (rest : List String) (h : rest ≠ []) :
    pathWalk rest .undefined = .undefined := by
  cases rest with
  | nil => exact absurd rfl h
  | cons s t => rfl

theorem pathWalk_append (p q : List String) (v : WVal) (hq : q ≠ []) :
    pathWalk (p ++ q) v = pathWalk q (pathWalk p v) := by
  induction p generalizing v with
  | nil => rfl
  | cons s p' ih =>
    have h1 : pathWalk ((s :: p') ++ q) v =
        if jsFalsy v then .undefined else pathWalk (p' ++ q) (jsIndex v s) := rfl
    have h2 : pathWalk (s :: p') v =
        if jsFalsy v then .undefined else pathWalk p' (jsIndex v s) := rfl
    rw [h1, h2]
    cases hf : jsFalsy v with
    | true => simp [pathWalk_undefined q hq]
    | false => simp [ih]

/-- C8: a watcher constructed with a dotted-path string resolves it by
splitting on `.` and indexing sequentially; a falsy/absent intermediate
makes the resolution abort silently with `undefined`; and a path with a
character outside the allowed set produces no getter — the watcher falls
back to a no-op getter and a warning, not an error. -/
theorem C8_dotted_path_watcher_getter (p : String) :
    (bailTest p = true → (watcherStringGetter p).warned = true ∧
      ∀ v, (watcherStringGetter p).getter v = .undefined) ∧
    (bailTest p = false →
      parsePath p = some (fun v => pathWalk (p.splitOn ".") v) ∧
      (watcherStringGetter p).warned = false) ∧
    (∀ (seg : String) (rest : List String) (v : WVal), jsFalsy v = false →
      pathWalk (seg :: rest) v = pathWalk rest (jsIndex v seg)) ∧
    (∀ rest : List String, rest ≠ [] → pathWalk rest .undefined = .undefined) ∧
    (∀ (pre post : List String) (v : WVal), post ≠ [] →
      pathWalk (pre ++ post) v = pathWalk post (pathWalk pre v)) := by
  refine ⟨fun h => ?_, fun h => ?_, fun seg rest v hv => ?_, pathWalk_undefined,
    pathWalk_append⟩
  · constructor
    · simp [watcherStringGetter, parsePath, h]
    · intro v
      simp [watcherStringGetter, parsePath, h]
  · exact ⟨by simp [parsePath, h], by simp [watcherStringGetter, parsePath, h]⟩
  · show (if jsFalsy v then WVal.undefined else pathWalk rest (jsIndex v seg)) = _
    simp [hv]

/-- Witness for C8 at concrete inputs: the path `"a-b"` bails with a
warning, `"a.b"` parses, an object intermediate is indexed sequentially,
and an absent (`undefined`) intermediate aborts to `undefined`. -/
theorem C8_dotted_path_watcher_getter_witness :
    (watcherStringGetter "a-b").warned = true ∧
    (watcherStringGetter "a.b").warned = false ∧
    pathWalk ["a", "b"] (.obj []) = pathWalk ["b"] (jsIndex (.obj []) "a") ∧
    pathWalk ["b"] .undefined = .undefined ∧
    pathWalk (["a"] ++ ["b"]) (.obj []) =
      pathWalk ["b"] (pathWalk ["a"] (.obj [])) :=
  ⟨((C8_dotted_path_watcher_getter "a-b").1 (by decide)).1,
   ((C8_dotted_path_watcher_getter "a.b").2.1 (by decide)).2,
   (C8_dotted_path_watcher_getter "x").2.2.1 "a" ["b"] (.obj []) (by decide),
   (C8_dotted_path_watcher_getter "x").2.2.2.1 ["b"] (by simp),
   (C8_dotted_path_watcher_getter "x").2.2.2.2 ["a"] ["b"] (.obj []) (by simp)⟩

/-! ## Explicit `set` / `del` (observer module)

Targets are modelled by `STarget`: `undefined`, `null`, a primitive (string,
number, symbol or boolean — `isPrimitive` true), or a plain object `SObj`.
Array targets take a separate early-return branch in the source
(`isArray(target) && isValidArrayIndex(key)`) that none of the claims'
target families reach; the modelled universe is plain-object/primitive
targets.  The host is a strict-mode ES module (the repository's TypeScript
sources), so assignment to a frozen object's property and `delete` of a
non-configurable property throw `TypeError`.  The outcome records whether a
developer warning was issued, whether `ob.dep.notify()` ran, and whether
the call threw. -/

structure SObj : Type where
  /-- own enumerable property names (values are irrelevant to the claims) -/
  props : List String
  /-- `Object.freeze` was applied: not extensible, properties non-writable
  and non-configurable -/
  frozen : Bool
  /-- the v3 read-only marker (`__v_isReadonly`) reported by `isReadonly` -/
  readonlyFlag : Bool
  /-- `target._isVue` -/
  isVue : Bool
  /-- the target has an `__ob__` (is observed) -/
  observed : Bool
  /-- `__ob__.vmCount` -/
  vmCount : Nat
deriving DecidableEq, Repr

inductive STarget : Type where
  | undefined : STarget
  | nul : STarget
  | prim : STarget
  | obj : SObj → STarget
deriving DecidableEq, Repr

inductive OpOutcome : Type where
  /-- The call returned normally. -/
  | ok (warned : Bool) (notified : Bool) : OpOutcome
  /-- The call threw a `TypeError`. -/
  | threw (warned : Bool) : OpOutcome
deriving DecidableEq, Repr

def isUndefT : STarget → Bool
  | .undefined => true
  | .nul => true
  | _ => false

def isPrimT : STarget → Bool
  | .prim => true
  | _ => false

/-- Modelled from the spec: the v3 `isReadonly` consumed by `set`/`del`
(`import { isReadonly } from '../../v3'`) is not under `src/`; per the
spec's "read-only targets", it reports the read-only marker of an object
target and is false for `undefined`/`null`/primitives. -/
def isReadonlyT : STarget → Bool
  | .obj o => o.readonlyFlag
  | _ => false

/-- Does `target.__ob__ && target.__ob__.vmCount` hold (truthy)? -/
def SObj.vmGuard (o : SObj) : Bool :=
  o.isVue || (o.observed && o.vmCount != 0)

/-- Embeds `set(target, key, val)` of the observer module, in a dev build:

1. `__DEV__` warning for an `undefined`/`null`/primitive target (no return);
2. `isReadonly(target)` → warn and return;
3. `const ob = (target as any).__ob__` — throws `TypeError` when the target
   is `undefined`/`null`;
4. (array fast path — outside the modelled universe);
5. `key in target && !(key in Object.prototype)` — throws `TypeError` on a
   primitive target; on an object, assigns and returns (the assignment
   throws on a frozen object in strict mode);
6. `_isVue || (ob && ob.vmCount)` → warn and return;
7. `!ob` → plain assignment (throws on a frozen object) and return;
8. `defineReactive(ob.value, key, val)` (throws on a non-extensible object)
   then `ob.dep.notify()`. -/
def setOp (target : STarget) (key : String) : OpOutcome :=
  let warned := isUndefT target || isPrimT target
  if isReadonlyT target then .ok true false
  else
    match target with
    | .undefined => .threw warned
    | .nul => .threw warned
    | .prim => .threw warned
    | .obj o =>
      if o.props.contains key then
        if o.frozen then .threw warned else .ok warned false
      else if o.vmGuard then .ok true false
      else if !o.observed then
        if o.frozen then .threw warned else .ok warned false
      else
        if o.frozen then .threw warned else .ok warned true

/-- Embeds `del(target, key)` of the observer module, in a dev build:

1. `__DEV__` warning for an `undefined`/`null`/primitive target (no return);
2. (array fast path — outside the modelled universe);
3. `const ob = (target as any).__ob__` — throws `TypeError` when the target
   is `undefined`/`null`;
4. `_isVue || (ob && ob.vmCount)` → warn and return;
5. `isReadonly(target)` → warn and return;
6. `!hasOwn(target, key)` → silent return (false on a primitive target,
   which therefore returns silently after the step-1 warning);
7. `delete target[key]` — throws `TypeError` on a frozen object in strict
   mode;
8. `!ob` → return, else `ob.dep.notify()`. -/
def delOp (target : STarget) (key : String) : OpOutcome :=
  let warned := isUndefT target || isPrimT target
  match target with
  | .undefined => .threw warned
  | .nul => .threw warned
  | .prim => .ok warned false
  | .obj o =>
    if o.vmGuard then .ok true false
    else if o.readonlyFlag then .ok true false
    else if !(o.props.contains key) then .ok warned false
    else if o.frozen then .threw warned
    else if o.observed then .ok warned true
    else .ok warned false

/-- C7 counterexample: contrary to the claim, `set` applied to an
`undefined` target does throw — the dev warning fires, `isReadonly` is
false, and the subsequent `target.__ob__` access raises a `TypeError`; `del`
behaves the same. -/
theorem C7_counterexample_undefined_target_throws :
    setOp .undefined "x" = .threw true ∧ delOp .undefined "x" = .threw true :=
  ⟨rfl, rfl⟩

/-- C7 (amended): only read-only targets fail silently under both `set` and
`del` (warning, no throw), and `del` on a primitive target warns and
returns silently; but on `undefined`/`null` targets both operations throw a
`TypeError` after the warning, `set` on a primitive target throws at the
`key in target` check, and `set` on a frozen (non-read-only, non-Vue)
object throws in strict mode without any warning. -/
theorem C7_amended_set_del_failure_modes (o : SObj) (key : String) :
    (isReadonlyT (.obj o) = true →
      setOp (.obj o) key = .ok true false ∧ delOp (.obj o) key = .ok true false) ∧
    delOp .prim key = .ok true false ∧
    setOp .undefined key = .threw true ∧
    setOp .nul key = .threw true ∧
    delOp .undefined key = .threw true ∧
    delOp .nul key = .threw true ∧
    setOp .prim key = .threw true ∧
    (o.frozen = true → o.readonlyFlag = false → o.vmGuard = false →
      setOp (.obj o) key = .threw false) := by
  refine ⟨fun hro => ⟨?_, ?_⟩, rfl, rfl, rfl, rfl, rfl, rfl,
    fun hf hro hvm => ?_⟩
  · simp only [isReadonlyT] at hro
    simp [setOp, isReadonlyT, hro]
  · simp only [isReadonlyT] at hro
    cases hg : o.vmGuard <;> simp [delOp, hro, hg]
  · have hro' : isReadonlyT (.obj o) = false := by simp [isReadonlyT, hro]
    by_cases hk : o.props.contains key = true
    · simp [setOp, isReadonlyT, hro, hk, hf, hvm, isUndefT, isPrimT]
    · cases hob : o.observed <;>
        simp [setOp, isReadonlyT, hro, hk, hvm, hf, hob, isUndefT, isPrimT]

/-- Witness for C7 (amended) at concrete inputs: a read-only object target
and a frozen plain object target. -/
theorem C7_amended_set_del_failure_modes_witness :
    setOp (.obj ⟨[], false, true, false, false, 0⟩) "k" = .ok true false ∧
    delOp (.obj ⟨[], false, true, false, false, 0⟩) "k" = .ok true false ∧
    setOp (.obj ⟨["k"], true, false, false, false, 0⟩) "k" = .threw false ∧
    delOp .prim "k" = .ok true false :=
  ⟨((C7_amended_set_del_failure_modes ⟨[], false, true, false, false, 0⟩ "k").1
      (by decide)).1,
   ((C7_amended_set_del_failure_modes ⟨[], false, true, false, false, 0⟩ "k").1
      (by decide)).2,
   (C7_amended_set_del_failure_modes ⟨["k"], true, false, false, false, 0⟩
      "k").2.2.2.2.2.2.2 (by decide) (by decide) (by decide),
   (C7_amended_set_del_failure_modes ⟨[], false, false, false, false, 0⟩
      "k").2.1⟩

/-! ## The watcher scheduler (`src/core/observer/scheduler.ts`)

A watcher is identified by its creation id; `post` is the sort flag of
`sortCompareFn` and `noRecurse` the guard consulted by `queueWatcher`.
The scheduler's module-level mutable state (`queue`, `has`, `circular`,
`waiting`, `flushing`, `index`) becomes an explicit state record, extended
with two ghost logs: the watchers executed by `watcher.run()` in order
(`runs`) and the ids reported by the infinite-update-loop warning
(`warns`).

`has[id]` takes the values `undefined`, `true` and `null` in the source;
every read is the loose test `has[id] != null`, which holds exactly for
`true`, so the model keeps the set of ids currently mapped to `true`.
`watcher === Dep.target` is compared by id (ids are unique by
construction, `++uid`).  A watcher's behaviour when run is supplied as an
environment `env : Nat → List SWatcher`: the watchers it passes to
`queueWatcher` (with itself as `Dep.target`), in order.  The flush loop is
given explicit fuel and returns `none` when the fuel is exhausted; the
`Bool` in the result records whether the loop was aborted by the
recursion guard (`break`).  The model is the dev build (`__DEV__`) with
`config.async` left `true`: the circular-update guard is active and the
flush is invoked from the deferred `nextTick` callback, which theorems
apply explicitly.  The post-flush lifecycle notifications
(`callActivatedHooks`, `callUpdatedHooks`, `cleanupDeps`, devtools) have no
effect on the modelled state. -/

/-- `MAX_UPDATE_COUNT`: the circular-update threshold. -/
def MAX_UPDATE_COUNT : Nat := 100

structure SWatcher : Type where
  id : Nat
  post : Bool
  noRecurse : Bool
deriving DecidableEq, Repr

structure SchedState : Type where
  queue : List SWatcher
  has : List Nat
  circular : List (Nat × Nat)
  waiting : Bool
  flushing : Bool
  index : Nat
  runs : List SWatcher
  warns : List Nat
deriving DecidableEq, Repr

def initSched : SchedState := ⟨[], [], [], false, false, 0, [], []⟩

/-- Is `queue[i].id > wid`? (`false` out of range, matching the JS loop
which never reads out of range). -/
def idGtAt (q : List SWatcher) (i wid : Nat) : Bool :=
  match q.get? i with
  | some w => wid < w.id
  | none => false

/-- The index scan of `queueWatcher`'s mid-flush splice:
```js
let i = queue.length - 1
while (i > index && queue[i].id > watcher.id) i--
queue.splice(i + 1, 0, watcher)
```
`spliceIdxAux q index wid i` runs the loop from position `i` and returns
the insertion position `i' + 1`. -/
def spliceIdxAux (q : List SWatcher) (index wid : Nat) : Nat → Nat
  | 0 => 1
  | i + 1 =>
    if index < i + 1 && idGtAt q (i + 1) wid then spliceIdxAux q index wid i
    else i + 2

def spliceIdx (q : List SWatcher) (index wid : Nat) : Nat :=
  match q with
  | [] => 0
  | _ :: _ => spliceIdxAux q index wid (q.length - 1)

/-- `queue.splice(p, 0, w)`: insert at position `p` (append when `p` is past
the end). -/
def insertAt : Nat → SWatcher → List SWatcher → List SWatcher
  | 0, w, l => w :: l
  | _ + 1, w, [] => [w]
  | n + 1, w, x :: xs => x :: insertAt n w xs

/-- Embeds `queueWatcher(watcher)`; `target` is the current `Dep.target`
(by id).  The final `!waiting` branch schedules `flushSchedulerQueue` via
`nextTick`; the deferred invocation is applied explicitly by theorems. -/
def queueWatcher (target : Option Nat) (w : SWatcher) (s : SchedState) :
    SchedState :=
  if s.has.contains w.id then s
  else if target == some w.id && w.noRecurse then s
  else
    let s1 := { s with has := w.id :: s.has }
    let s2 :=
      if !s1.flushing then { s1 with queue := s1.queue ++ [w] }
      else
        { s1 with queue := insertAt (spliceIdx s1.queue s1.index w.id) w s1.queue }
    if !s2.waiting then { s2 with waiting := true } else s2

/-- `sortCompareFn(a, b) <= 0` as a boolean relation: `post` watchers sort
after all non-`post` watchers, ties by ascending id. -/
def schedLE (a b : SWatcher) : Bool :=
  if a.post then b.post && decide (a.id ≤ b.id)
  else b.post || decide (a.id ≤ b.id)

/-- Stable insertion used by `sortQueue`: the new element goes after every
element `x` with `schedLE x w`. -/
def insertSorted (w : SWatcher) : List SWatcher → List SWatcher
  | [] => [w]
  | x :: xs => if schedLE x w then x :: insertSorted w xs else w :: x :: xs

/-- `queue.sort(sortCompareFn)`: a stable sort by `schedLE` (JavaScript's
`Array.prototype.sort` is stable, and a stable sort under a total preorder
is unique, so insertion sort is a faithful model). -/
def sortQueue (q : List SWatcher) : List SWatcher :=
  q.foldl (fun acc w => insertSorted w acc) []

/-- `circular[id] || 0`. -/
def getCirc (l : List (Nat × Nat)) (i : Nat) : Nat := (l.lookup i).getD 0

/-- `circular[id] = v`. -/
def setCirc : List (Nat × Nat) → Nat → Nat → List (Nat × Nat)
  | [], i, v => [(i, v)]
  | (k, x) :: t, i, v =>
    if k == i then (i, v) :: t else (k, x) :: setCirc t i v

/-- One iteration of the `for (index = 0; index < queue.length; index++)`
loop of `flushSchedulerQueue`: run `queue[index]`'s `before` hook (no
scheduler-observable effect), clear `has[id]`, run the watcher (which
enqueues `env id` with itself as `Dep.target`), then the dev
circular-update check; the returned `Bool` is the `break` signal. -/
def flushStep (env : Nat → List SWatcher) (s : SchedState) :
    SchedState × Bool :=
  match s.queue.get? s.index with
  | none => (s, false)
  | some w =>
    let s1 := { s with has := s.has.filter (fun i => i != w.id),
                       runs := s.runs ++ [w] }
    let s2 := (env w.id).foldl (fun st x => queueWatcher (some w.id) x st) s1
    if s2.has.contains w.id then
      let c := getCirc s2.circular w.id + 1
      let s3 := { s2 with circular := setCirc s2.circular w.id c }
      if MAX_UPDATE_COUNT < c then ({ s3 with warns := s3.warns ++ [w.id] }, true)
      else ({ s3 with index := s3.index + 1 }, false)
    else ({ s2 with index := s2.index + 1 }, false)

/-- The flush loop, with explicit fuel (`none` = fuel exhausted before the
loop finished). -/
def flushLoop (env : Nat → List SWatcher) :
    Nat → SchedState → Option (SchedState × Bool)
  | 0, _ => none
  | fuel + 1, s =>
    if s.index < s.queue.length then
      match flushStep env s with
      | (s', true) => some (s', true)
      | (s', false) => flushLoop env fuel s'
    else some (s, false)

/-- `resetSchedulerState()`. -/
def resetSchedulerState (s : SchedState) : SchedState :=
  { s with index := 0, queue := [], has := [], circular := [],
           waiting := false, flushing := false }

/-- Embeds `flushSchedulerQueue()`: set `flushing`, sort the queue, iterate
by index, then snapshot-and-reset (the post-flush `updated`/`activated`
notifications and `cleanupDeps` do not touch the modelled state). -/
def flushSchedulerQueue (env : Nat → List SWatcher) (fuel : Nat)
    (s : SchedState) : Option (SchedState × Bool) :=
  match flushLoop env fuel { s with flushing := true, queue := sortQueue s.queue, index := 0 } with
  | none => none
  | some (s1, broke) => some (resetSchedulerState s1, broke)

/-- A pre-flush burst of `queueWatcher` calls (no flush in progress, no
`Dep.target`). -/
def enqueueAll (ws : List SWatcher) (s : SchedState) : SchedState :=
  ws.foldl (fun st w => queueWatcher none w st) s

/-- The environment of watchers that enqueue nothing when run. -/
def envNone : Nat → List SWatcher := fun _ => []

/-- The environment in which the watcher with id `i` unconditionally
re-enqueues itself on every run. -/
def envSelf (i : Nat) : Nat → List SWatcher :=
  fun j => if j == i then [⟨i, false, false⟩] else []

/-! ### Scheduler lemmas -/

theorem flushLoop_mono (env : Nat → List SWatcher) :
    ∀ {f f' : Nat} {s : SchedState} {r : SchedState × Bool}, f ≤ f' →
      flushLoop env f s = some r → flushLoop env f' s = some r := by
  intro f
  induction f with
  | zero => intro f' s r _ h; exact absurd h (by simp [flushLoop])
  | succ f ih =>
    intro f' s r hle h
    obtain ⟨f'', rfl⟩ : ∃ f'', f' = f'' + 1 :=
      ⟨f' - 1, by omega⟩
    have hle' : f ≤ f'' := by omega
    unfold flushLoop at h ⊢
    by_cases hlt : s.index < s.queue.length
    · simp only [hlt, if_true] at h ⊢
      rcases hstep : flushStep env s with ⟨s', b⟩
      rw [hstep] at h
      cases b with
      | true => exact h
      | false => exact ih hle' h
    · simp only [hlt, if_false] at h ⊢
      exact h

theorem flushLoop_det (env : Nat → List SWatcher) {f f' : Nat} {s : SchedState}
    {r r' : SchedState × Bool} (h : flushLoop env f s = some r)
    (h' : flushLoop env f' s = some r') : r = r' := by
  rcases le_total f f' with hle | hle
  · have := flushLoop_mono env hle h
    rw [this] at h'; exact Option.some.inj h'
  · have := flushLoop_mono env hle h'
    rw [this] at h; exact (Option.some.inj h).symm

theorem filter_ne_not_contains (l : List Nat) (x : Nat) :
    (l.filter (fun i => i != x)).contains x = false := by
  simp [List.elem_eq_mem, List.mem_filter]

theorem spliceIdxAux_self (q : List SWatcher) (index wid : Nat) :
    spliceIdxAux q index wid index = index + 1 := by
  cases index with
  | zero => rfl
  | succ m => simp [spliceIdxAux]

theorem insertAt_replicate_self (n : Nat) (w : SWatcher) :
    insertAt n w (List.replicate n w) = List.replicate (n + 1) w := by
  induction n with
  | zero => rfl
  | succ m ih => simpa [insertAt, List.replicate_succ] using ih

/-- The scheduler state reached after `k` iterations of the flush loop on
the single self-re-enqueueing watcher with id `i`. -/
def selfState (i k : Nat) : SchedState :=
  { queue := List.replicate (k + 1) ⟨i, false, false⟩,
    has := [i],
    circular := if k = 0 then [] else [(i, k)],
    waiting := true, flushing := true, index := k,
    runs := List.replicate k ⟨i, false, false⟩, warns := [] }

/-- The state in which the recursion guard fires. -/
def selfAbortState (i : Nat) : SchedState :=
  { queue := List.replicate 102 ⟨i, false, false⟩,
    has := [i],
    circular := [(i, 101)],
    waiting := true, flushing := true, index := 100,
    runs := List.replicate 101 ⟨i, false, false⟩, warns := [i] }

/-- Common evaluation of one flush iteration on `selfState i k`: the
watcher runs, re-enqueues itself (splice at `index + 1`), and the circular
count rises to `k + 1`. -/
theorem selfState_step_eval (i k : Nat) :
    flushStep (envSelf i) (selfState i k) =
      (if MAX_UPDATE_COUNT < k + 1 then
        ({ queue := List.replicate (k + 2) ⟨i, false, false⟩,
           has := [i], circular := [(i, k + 1)],
           waiting := true, flushing := true, index := k,
           runs := List.replicate (k + 1) ⟨i, false, false⟩,
           warns := [i] }, true)
      else
        (selfState i (k + 1), false)) := by
  have hget : (List.replicate (k + 1) (⟨i, false, false⟩ : SWatcher)).get? k =
      some ⟨i, false, false⟩ := by
    simp [List.get?_eq_getElem?]
  have hfilter : (([i] : List Nat).filter (fun j => j != i)) = [] := by simp
  have hsplice : spliceIdx (List.replicate (k + 1) ⟨i, false, false⟩) k i = k + 1 := by
    rw [List.replicate_succ]
    show spliceIdxAux _ k i
        ((⟨i, false, false⟩ :: List.replicate k ⟨i, false, false⟩ :
          List SWatcher).length - 1) = k + 1
    simp only [List.length_cons, List.length_replicate, Nat.add_sub_cancel]
    exact spliceIdxAux_self _ k i
  have hcirc : getCirc (if k = 0 then [] else [(i, k)]) i + 1 = k + 1 := by
    by_cases hk : k = 0
    · simp [hk, getCirc]
    · simp [hk, getCirc, List.lookup]
  have hset : setCirc (if k = 0 then [] else [(i, k)]) i (k + 1) = [(i, k + 1)] := by
    by_cases hk : k = 0
    · simp [hk, setCirc]
    · simp [hk, setCirc]
  show flushStep (envSelf i)
      { queue := List.replicate (k + 1) ⟨i, false, false⟩,
        has := [i], circular := if k = 0 then [] else [(i, k)],
        waiting := true, flushing := true, index := k,
        runs := List.replicate k ⟨i, false, false⟩, warns := [] } = _
  unfold flushStep
  rw [hget]
  simp only [envSelf, beq_self_eq_true, if_true]
  unfold queueWatcher
  simp only [List.foldl_cons, List.foldl_nil, hfilter]
  simp only [List.contains, List.elem_nil, Bool.false_eq_true, if_false,
    Bool.and_false, Bool.not_true, Bool.not_false, ite_false, ite_true]
  rw [hsplice, insertAt_replicate_self (k + 1)]
  simp only [List.elem_cons_self, if_true]
  rw [hcirc, hset]
  by_cases hbig : MAX_UPDATE_COUNT < k + 1
  · simp [hbig, List.replicate_succ']
  · simp [hbig, selfState, List.replicate_succ']

theorem selfState_step_lt (i k : Nat) (hk : k ≤ 99) :
    flushStep (envSelf i) (selfState i k) = (selfState i (k + 1), false) := by
  rw [selfState_step_eval]
  have : ¬ (MAX_UPDATE_COUNT < k + 1) := by simp [MAX_UPDATE_COUNT]; omega
  simp [this]

theorem selfState_step_break (i : Nat) :
    flushStep (envSelf i) (selfState i 100) = (selfAbortState i, true) := by
  rw [selfState_step_eval]
  have : MAX_UPDATE_COUNT < 100 + 1 := by simp [MAX_UPDATE_COUNT]
  simp [this, selfAbortState]

theorem selfState_loop (i : Nat) :
    ∀ n k, k + n = 100 →
      flushLoop (envSelf i) (n + 1) (selfState i k) = some (selfAbortState i, true) := by
  intro n
  induction n with
  | zero =>
    intro k hk
    have hk100 : k = 100 := by omega
    subst hk100
    have hlt : (selfState i 100).index < (selfState i 100).queue.length := by
      simp [selfState]
    unfold flushLoop
    rw [if_pos hlt, selfState_step_break i]
  | succ n ih =>
    intro k hk
    have hk' : k ≤ 99 := by omega
    have hlt : (selfState i k).index < (selfState i k).queue.length := by
      simp [selfState]
    show flushLoop (envSelf i) (n + 1 + 1) (selfState i k) = _
    unfold flushLoop
    rw [if_pos hlt, selfState_step_lt i k hk']
    exact ih (k + 1) (by omega)

/-- C4: an effect that unconditionally re-enqueues itself on every run is
halted by the recursion guard: the flush loop terminates (for every
sufficient fuel it returns a result, independent of the fuel), the
iteration is aborted (`break` signal true), the effect has run
`MAX_UPDATE_COUNT + 1 = 101` times — its id having reappeared in the
presence map after being cleared more than 100 times — and exactly one
diagnostic identifying the offending effect id is surfaced. -/
theorem C4_self_enqueue_loop_guard (i fuel : Nat) (hfuel : 101 ≤ fuel) :
    ∃ s', flushSchedulerQueue (envSelf i) fuel
        (queueWatcher none ⟨i, false, false⟩ initSched) = some (s', true) ∧
      s'.warns = [i] ∧
      s'.runs = List.replicate 101 ⟨i, false, false⟩ := by
  have hstart :
      ({ queueWatcher none ⟨i, false, false⟩ initSched with
          flushing := true,
          queue := sortQueue (queueWatcher none ⟨i, false, false⟩ initSched).queue,
          index := 0 } : SchedState) = selfState i 0 := rfl
  have hloop := selfState_loop i 100 0 (by omega)
  have hloop' : flushLoop (envSelf i) fuel (selfState i 0) =
      some (selfAbortState i, true) :=
    flushLoop_mono (envSelf i) (by omega) hloop
  refine ⟨resetSchedulerState (selfAbortState i), ?_, rfl, rfl⟩
  unfold flushSchedulerQueue
  rw [hstart, hloop']

/-- Witness for C4 at a concrete effect id and fuel. -/
theorem C4_self_enqueue_loop_guard_witness :
    ∃ s', flushSchedulerQueue (envSelf 7) 150
        (queueWatcher none ⟨7, false, false⟩ initSched) = some (s', true) ∧
      s'.warns = [7] ∧
      s'.runs = List.replicate 101 ⟨7, false, false⟩ :=
  C4_self_enqueue_loop_guard 7 150 (by norm_num)

theorem insertSorted_perm (w : SWatcher) (l : List SWatcher) :
    List.Perm (insertSorted w l) (w :: l) := by
  induction l with
  | nil => rfl
  | cons x xs ih =>
    unfold insertSorted
    by_cases hle : schedLE x w = true
    · rw [if_pos hle]
      exact (ih.cons x).trans (List.Perm.swap w x xs)
    · rw [if_neg hle]

theorem sortQueue_perm_aux (q : List SWatcher) :
    ∀ acc, List.Perm (q.foldl (fun acc w => insertSorted w acc) acc) (q ++ acc) := by
  induction q with
  | nil => intro acc; simp
  | cons w ws ih =>
    intro acc
    have h1 := ih (insertSorted w acc)
    have h2 : List.Perm (ws ++ insertSorted w acc) (ws ++ (w :: acc)) :=
      (insertSorted_perm w acc).append_left ws
    have h3 : List.Perm (ws ++ (w :: acc)) (w :: (ws ++ acc)) := List.perm_middle
    exact (h1.trans h2).trans h3

theorem sortQueue_perm (q : List SWatcher) : List.Perm (sortQueue q) q := by
  simpa using sortQueue_perm_aux q []

theorem schedLE_total (a b : SWatcher) : schedLE a b = true ∨ schedLE b a = true := by
  unfold schedLE
  cases ha : a.post <;> cases hb : b.post <;> simp <;> omega

theorem schedLE_trans {a b c : SWatcher} (h1 : schedLE a b = true)
    (h2 : schedLE b c = true) : schedLE a c = true := by
  unfold schedLE at h1 h2 ⊢
  cases ha : a.post <;> cases hb : b.post <;> cases hc : c.post <;>
    simp_all <;> omega

theorem mem_insertSorted {y w : SWatcher} {l : List SWatcher}
    (h : y ∈ insertSorted w l) : y = w ∨ y ∈ l := by
  have := (insertSorted_perm w l).mem_iff.1 h
  simpa using this

theorem insertSorted_sorted (w : SWatcher) (l : List SWatcher)
    (h : l.Pairwise (fun a b => schedLE a b = true)) :
    (insertSorted w l).Pairwise (fun a b => schedLE a b = true) := by
  induction l with
  | nil => simp [insertSorted]
  | cons x xs ih =>
    rcases List.pairwise_cons.1 h with ⟨hx, hxs⟩
    unfold insertSorted
    by_cases hle : schedLE x w = true
    · simp only [hle, if_true]
      refine List.pairwise_cons.2 ⟨?_, ih hxs⟩
      intro y hy
      rcases mem_insertSorted hy with rfl | hy'
      · exact hle
      · exact hx y hy'
    · simp only [hle, if_false]
      refine List.pairwise_cons.2 ⟨?_, h⟩
      intro y hy
      have hwx : schedLE w x = true := by
        rcases schedLE_total x w with h' | h'
        · exact absurd h' hle
        · exact h'
      rcases List.mem_cons.1 hy with rfl | hy'
      · exact hwx
      · exact schedLE_trans hwx (hx y hy')

theorem sortQueue_sorted_aux (q : List SWatcher) :
    ∀ acc, acc.Pairwise (fun a b => schedLE a b = true) →
      (q.foldl (fun acc w => insertSorted w acc) acc).Pairwise
        (fun a b => schedLE a b = true) := by
  induction q with
  | nil => intro acc h; exact h
  | cons w ws ih => intro acc h; exact ih _ (insertSorted_sorted w acc h)

theorem sortQueue_sorted (q : List SWatcher) :
    (sortQueue q).Pairwise (fun a b => schedLE a b = true) :=
  sortQueue_sorted_aux q [] (by simp)

/-- The invariant maintained by pre-flush enqueues: not flushing, queue ids
duplicate-free, and the presence map holds exactly the queued ids. -/
def EnqInv (s : SchedState) : Prop :=
  s.flushing = false ∧ (s.queue.map SWatcher.id).Nodup ∧
  ∀ i : Nat, s.has.contains i = true ↔ i ∈ s.queue.map SWatcher.id

theorem queueWatcher_none_eq (w : SWatcher) (s : SchedState)
    (hf : s.flushing = false) :
    queueWatcher none w s =
      if s.has.contains w.id then s
      else { s with has := w.id :: s.has, queue := s.queue ++ [w],
                    waiting := true } := by
  unfold queueWatcher
  cases hc : s.has.contains w.id with
  | true => simp [hc]
  | false =>
    have hbeq : ((none : Option Nat) == some w.id) = false := rfl
    have hg : ((none : Option Nat) == some w.id && w.noRecurse) = false := by
      rw [hbeq, Bool.false_and]
    cases hw : s.waiting <;> simp [hc, hg, hf, hw]

theorem enqueueAll_spec (ws : List SWatcher) :
    ∀ s : SchedState, EnqInv s →
      EnqInv (enqueueAll ws s) ∧
      (enqueueAll ws s).runs = s.runs ∧
      (enqueueAll ws s).warns = s.warns ∧
      (∃ ext, (enqueueAll ws s).queue = s.queue ++ ext ∧ ∀ x ∈ ext, x ∈ ws) ∧
      (∀ w ∈ ws, w.id ∈ (enqueueAll ws s).queue.map SWatcher.id) := by
  induction ws with
  | nil =>
    intro s h
    exact ⟨h, rfl, rfl, ⟨[], by simp [enqueueAll], by simp⟩, by simp⟩
  | cons w ws ih =>
    intro s h
    rcases h with ⟨hf, hnd, hhas⟩
    have hq : enqueueAll (w :: ws) s = enqueueAll ws (queueWatcher none w s) := rfl
    by_cases hc : s.has.contains w.id = true
    · -- duplicate enqueue: dropped
      have hstep : queueWatcher none w s = s := by
        rw [queueWatcher_none_eq w s hf, if_pos hc]
      rw [hq, hstep]
      obtain ⟨hinv, hruns, hwarns, ⟨ext, hext, hextmem⟩, hmem⟩ :=
        ih s ⟨hf, hnd, hhas⟩
      refine ⟨hinv, hruns, hwarns,
        ⟨ext, hext, fun x hx => List.mem_cons_of_mem w (hextmem x hx)⟩, ?_⟩
      intro w' hw'
      rcases List.mem_cons.1 hw' with rfl | hw''
      · -- w.id was already in the queue
        have hidq : w'.id ∈ s.queue.map SWatcher.id := (hhas w'.id).1 hc
        rw [hext, List.map_append]
        exact List.mem_append_left _ hidq
      · exact hmem w' hw''
    · have hc' : s.has.contains w.id = false := by
        cases h' : s.has.contains w.id
        · rfl
        · exact absurd h' hc
      have hstep : queueWatcher none w s =
          { s with has := w.id :: s.has, queue := s.queue ++ [w],
                   waiting := true } := by
        rw [queueWatcher_none_eq w s hf,
          if_neg (by rw [hc']; exact Bool.false_ne_true)]
      rw [hq, hstep]
      set s1 : SchedState :=
        { s with has := w.id :: s.has, queue := s.queue ++ [w], waiting := true }
        with hs1
      have hwid : w.id ∉ s.queue.map SWatcher.id := by
        intro hmem'
        have := (hhas w.id).2 hmem'
        rw [hc'] at this
        exact Bool.false_ne_true this
      have hinv1 : EnqInv s1 := by
        refine ⟨hf, ?_, ?_⟩
        · show ((s.queue ++ [w]).map SWatcher.id).Nodup
          rw [List.map_append, List.nodup_append]
          refine ⟨hnd, by simp, ?_⟩
          intro a ha hb
          simp only [List.map_cons, List.map_nil, List.mem_singleton] at hb
          subst hb
          exact hwid ha
        · intro i
          show (w.id :: s.has).contains i = true ↔
            i ∈ (s.queue ++ [w]).map SWatcher.id
          have hh := hhas i
          simp only [List.contains, List.elem_eq_mem, decide_eq_true_eq] at hh ⊢
          simp only [List.mem_cons, List.map_append, List.mem_append,
            List.map_cons, List.map_nil, List.not_mem_nil, or_false]
          tauto
      obtain ⟨hinv, hruns, hwarns, ⟨ext, hext, hextmem⟩, hmem⟩ := ih s1 hinv1
      refine ⟨hinv, hruns, hwarns, ⟨w :: ext, ?_, ?_⟩, ?_⟩
      · rw [hext]
        show s.queue ++ [w] ++ ext = s.queue ++ w :: ext
        simp
      · intro x hx
        rcases List.mem_cons.1 hx with rfl | hx'
        · exact List.mem_cons_self x ws
        · exact List.mem_cons_of_mem w (hextmem x hx')
      · intro w' hw'
        rcases List.mem_cons.1 hw' with rfl | hw''
        · -- w.id is now in s1's queue, which is a prefix of the final queue
          have hin : w'.id ∈ s1.queue.map SWatcher.id := by
            show w'.id ∈ (s.queue ++ [w']).map SWatcher.id
            rw [List.map_append]
            exact List.mem_append_right _ (by simp)
          rw [hext, List.map_append]
          exact List.mem_append_left _ hin
        · exact hmem w' hw''

/-- With watchers that enqueue nothing, the flush loop visits each queue
slot once, in order, without breaking. -/
theorem flushLoop_envNone :
    ∀ (k : Nat) (s : SchedState), s.queue.length = s.index + k →
      ∃ s', flushLoop envNone (k + 1) s = some (s', false) ∧
        s'.runs = s.runs ++ s.queue.drop s.index ∧
        s'.queue = s.queue ∧ s'.warns = s.warns := by
  intro k
  induction k with
  | zero =>
    intro s hlen
    have hnlt : ¬ s.index < s.queue.length := by omega
    refine ⟨s, ?_, ?_, rfl, rfl⟩
    · unfold flushLoop; rw [if_neg hnlt]
    · rw [List.drop_eq_nil_of_le (by omega), List.append_nil]
  | succ k ih =>
    intro s hlen
    have hlt : s.index < s.queue.length := by omega
    have hget : s.queue.get? s.index = some (s.queue.get ⟨s.index, hlt⟩) :=
      List.get?_eq_get hlt
    set w := s.queue.get ⟨s.index, hlt⟩ with hw
    have hstep : flushStep envNone s =
        ({ s with has := s.has.filter (fun i => i != w.id),
                  runs := s.runs ++ [w],
                  index := s.index + 1 }, false) := by
      unfold flushStep
      rw [hget]
      simp only [envNone, List.foldl_nil]
      rw [filter_ne_not_contains]
      simp
    obtain ⟨s', h1, h2, h3, h4⟩ := ih
      { s with has := s.has.filter (fun i => i != w.id),
               runs := s.runs ++ [w], index := s.index + 1 }
      (by simp; omega)
    refine ⟨s', ?_, ?_, h3, h4⟩
    · show flushLoop envNone (k + 1 + 1) s = some (s', false)
      unfold flushLoop
      rw [if_pos hlt, hstep]
      exact h1
    · rw [h2]
      have hdrop : List.drop s.index s.queue =
          w :: List.drop (s.index + 1) s.queue := by
        rw [List.drop_eq_getElem_cons hlt]
        rw [hw, List.get_eq_getElem]
      rw [hdrop]
      simp

/-- The canonical result of a flush over a queue of watchers that enqueue
nothing: no break, and the run log extends by the sorted queue. -/
theorem flushSchedulerQueue_envNone (s : SchedState) (fuel : Nat)
    (r : SchedState × Bool)
    (h : flushSchedulerQueue envNone fuel s = some r) :
    r.2 = false ∧ r.1.runs = s.runs ++ sortQueue s.queue ∧
      r.1.warns = s.warns := by
  obtain ⟨s', h1, h2, h3, h4⟩ := flushLoop_envNone (sortQueue s.queue).length
    { s with flushing := true, queue := sortQueue s.queue, index := 0 }
    (by simp)
  unfold flushSchedulerQueue at h
  cases heq : flushLoop envNone fuel
      { s with flushing := true, queue := sortQueue s.queue, index := 0 } with
  | none => rw [heq] at h; exact absurd h (by simp)
  | some p =>
    rw [heq] at h
    have hp : p = (s', false) := flushLoop_det envNone heq h1
    subst hp
    simp only [Option.some.injEq] at h
    subst h
    refine ⟨rfl, ?_, h4⟩
    show s'.runs = s.runs ++ sortQueue s.queue
    rw [h2]; simp

/-- C2: enqueueing an effect any number of times before a flush starts
results in exactly one execution of that effect in the next flush —
duplicate enqueues are dropped via the presence map keyed by the effect's
id. -/
theorem C2_enqueue_dedupe_single_execution (ws : List SWatcher) (E : SWatcher)
    (fuel : Nat) (r : SchedState × Bool)
    (hmem : E ∈ ws)
    (huniq : ∀ w ∈ ws, w.id = E.id → w = E)
    (hflush : flushSchedulerQueue envNone fuel (enqueueAll ws initSched) = some r) :
    r.1.runs.count E = 1 := by
  obtain ⟨hinv, hruns, hwarns, ⟨ext, hext, hextmem⟩, hidmem⟩ :=
    enqueueAll_spec ws initSched ⟨rfl, by simp [initSched], by simp [initSched]⟩
  obtain ⟨hb, hr, hw⟩ := flushSchedulerQueue_envNone _ fuel r hflush
  rw [hr, hruns]
  show (([] : List SWatcher) ++ sortQueue (enqueueAll ws initSched).queue).count E = 1
  rw [List.nil_append,
    (sortQueue_perm (enqueueAll ws initSched).queue).count_eq]
  have hq : (enqueueAll ws initSched).queue = ext := by
    rw [hext]; rfl
  have hidq : E.id ∈ (enqueueAll ws initSched).queue.map SWatcher.id :=
    hidmem E hmem
  obtain ⟨x, hx, hxid⟩ := List.mem_map.1 hidq
  have hxws : x ∈ ws := by
    have := hextmem x (by rw [← hq]; exact hx)
    exact this
  have hxE : x = E := huniq x hxws hxid
  have hEmem : E ∈ (enqueueAll ws initSched).queue := hxE ▸ hx
  have hnodup : (enqueueAll ws initSched).queue.Nodup :=
    List.Nodup.of_map SWatcher.id hinv.2.1
  exact List.count_eq_one_of_mem hnodup hEmem

/-- Witness for C2 at a concrete input: the effect with id 1 enqueued twice
together with the effect with id 2. -/
theorem C2_enqueue_dedupe_single_execution_witness :
    ∃ r, flushSchedulerQueue envNone 10
        (enqueueAll [⟨1, false, false⟩, ⟨1, false, false⟩, ⟨2, false, false⟩]
          initSched) = some r ∧
      r.1.runs.count ⟨1, false, false⟩ = 1 := by
  refine ⟨(⟨[], [], [], false, false, 0,
    [⟨1, false, false⟩, ⟨2, false, false⟩], []⟩, false), by decide, ?_⟩
  exact C2_enqueue_dedupe_single_execution
    [⟨1, false, false⟩, ⟨1, false, false⟩, ⟨2, false, false⟩]
    ⟨1, false, false⟩ 10 _ (by decide) (by decide) (by decide)

/-! ### Mid-flush splice lemmas (for the ordering claim) -/

theorem spliceIdxAux_bounds (q : List SWatcher) (index wid : Nat) :
    ∀ i, index ≤ i →
      index < spliceIdxAux q index wid i ∧ spliceIdxAux q index wid i ≤ i + 1 := by
  intro i
  induction i with
  | zero =>
    intro h
    have : index = 0 := Nat.le_zero.1 h
    subst this
    exact ⟨Nat.zero_lt_one, le_refl 1⟩
  | succ i ih =>
    intro h
    unfold spliceIdxAux
    by_cases hcond : (index < i + 1 && idGtAt q (i + 1) wid) = true
    · rw [if_pos hcond]
      have hidx : index ≤ i := by
        have hc2 : index < i + 1 ∧ idGtAt q (i + 1) wid = true := by
          simpa using hcond
        omega
      obtain ⟨h1, h2⟩ := ih hidx
      exact ⟨h1, by omega⟩
    · rw [if_neg hcond]
      omega

theorem spliceIdxAux_scanned (q : List SWatcher) (index wid : Nat) :
    ∀ i j, spliceIdxAux q index wid i ≤ j → j ≤ i → idGtAt q j wid = true := by
  intro i
  induction i with
  | zero =>
    intro j h1 h2
    simp only [spliceIdxAux] at h1
    omega
  | succ i ih =>
    intro j h1 h2
    unfold spliceIdxAux at h1
    by_cases hcond : (index < i + 1 && idGtAt q (i + 1) wid) = true
    · rw [if_pos hcond] at h1
      by_cases hji : j ≤ i
      · exact ih j h1 hji
      · have hc2 : index < i + 1 ∧ idGtAt q (i + 1) wid = true := by
          simpa using hcond
        have : j = i + 1 := by omega
        subst this
        exact hc2.2
    · rw [if_neg hcond] at h1
      omega

theorem spliceIdxAux_pred (q : List SWatcher) (index wid : Nat) :
    ∀ i, index ≤ i →
      spliceIdxAux q index wid i = index + 1 ∨
      idGtAt q (spliceIdxAux q index wid i - 1) wid = false := by
  intro i
  induction i with
  | zero =>
    intro h
    have : index = 0 := Nat.le_zero.1 h
    subst this
    exact .inl rfl
  | succ i ih =>
    intro h
    unfold spliceIdxAux
    by_cases hcond : (index < i + 1 && idGtAt q (i + 1) wid) = true
    · rw [if_pos hcond]
      have hidx : index ≤ i := by
        have hc2 : index < i + 1 ∧ idGtAt q (i + 1) wid = true := by
          simpa using hcond
        omega
      exact ih hidx
    · rw [if_neg hcond]
      by_cases hlt2 : index < i + 1
      · right
        have hgt : idGtAt q (i + 1) wid = false := by
          cases hgt : idGtAt q (i + 1) wid
          · rfl
          · exact absurd (by simp [hlt2, hgt]) hcond
        simpa using hgt
      · have : index = i + 1 := by omega
        exact .inl (by omega)

theorem length_insertAt (p : Nat) (w : SWatcher) (l : List SWatcher) :
    (insertAt p w l).length = l.length + 1 := by
  induction l generalizing p with
  | nil => cases p <;> rfl
  | cons x xs ih =>
    cases p with
    | zero => rfl
    | succ p => simp [insertAt, ih]

theorem mem_insertAt {y w : SWatcher} :
    ∀ {p : Nat} {l : List SWatcher}, y ∈ insertAt p w l → y = w ∨ y ∈ l := by
  intro p l
  induction l generalizing p with
  | nil =>
    intro h
    cases p <;> simpa [insertAt] using h
  | cons x xs ih =>
    intro h
    cases p with
    | zero =>
      rcases List.mem_cons.1 h with rfl | h'
      · exact .inl rfl
      · exact .inr h'
    | succ p =>
      rcases List.mem_cons.1 h with rfl | h'
      · exact .inr (List.mem_cons_self _ _)
      · rcases ih h' with rfl | h''
        · exact .inl rfl
        · exact .inr (List.mem_cons_of_mem _ h'')

theorem drop_insertAt :
    ∀ (n p : Nat) (w : SWatcher) (l : List SWatcher), n ≤ p → n ≤ l.length →
      (insertAt p w l).drop n = insertAt (p - n) w (l.drop n) := by
  intro n
  induction n with
  | zero => intro p w l _ _; simp
  | succ n ih =>
    intro p w l hnp hnl
    cases p with
    | zero => omega
    | succ p =>
      cases l with
      | nil => simp at hnl
      | cons x xs =>
        show (insertAt p w xs).drop n = _
        rw [ih p w xs (by omega) (by simpa using hnl)]
        simp [Nat.succ_sub_succ]

theorem take_insertAt :
    ∀ (n p : Nat) (w : SWatcher) (l : List SWatcher), n ≤ p → n ≤ l.length →
      (insertAt p w l).take n = l.take n := by
  intro n
  induction n with
  | zero => intro p w l _ _; simp
  | succ n ih =>
    intro p w l hnp hnl
    cases p with
    | zero => omega
    | succ p =>
      cases l with
      | nil => simp at hnl
      | cons x xs =>
        show x :: (insertAt p w xs).take n = x :: xs.take n
        rw [ih p w xs (by omega) (by simpa using hnl)]

theorem pairwise_id_le_get (t : List SWatcher)
    (hs : t.Pairwise (fun a b => a.id ≤ b.id)) (j k : Nat)
    (hj : j < t.length) (hk : k < t.length) (hjk : j ≤ k) :
    (t.get ⟨j, hj⟩).id ≤ (t.get ⟨k, hk⟩).id := by
  rcases Nat.lt_or_eq_of_le hjk with hlt | heq
  · exact List.pairwise_iff_get.1 hs ⟨j, hj⟩ ⟨k, hk⟩ (by simpa using hlt)
  · subst heq
    exact le_refl _

theorem insertAt_sorted (w : SWatcher) :
    ∀ (t : List SWatcher) (p : Nat),
      t.Pairwise (fun a b => a.id ≤ b.id) →
      (∀ (j : Nat) (x : SWatcher), j < p → t.get? j = some x → x.id ≤ w.id) →
      (∀ (j : Nat) (x : SWatcher), p ≤ j → t.get? j = some x → w.id < x.id) →
      (insertAt p w t).Pairwise (fun a b => a.id ≤ b.id) := by
  intro t
  induction t with
  | nil =>
    intro p _ _ _
    cases p <;> simp [insertAt]
  | cons x xs ih =>
    intro p hs hbefore hafter
    cases p with
    | zero =>
      show (w :: x :: xs).Pairwise _
      refine List.pairwise_cons.2 ⟨?_, hs⟩
      intro y hy
      obtain ⟨n, hn⟩ := List.mem_iff_get?.1 hy
      exact le_of_lt (hafter n y (Nat.zero_le n) hn)
    | succ p =>
      show (x :: insertAt p w xs).Pairwise _
      rcases List.pairwise_cons.1 hs with ⟨hx, hxs⟩
      refine List.pairwise_cons.2 ⟨?_, ?_⟩
      · intro y hy
        rcases mem_insertAt hy with rfl | hy'
        · exact hbefore 0 x (Nat.succ_pos p) rfl
        · exact hx y hy'
      · exact ih p hxs
          (fun j y hj hg => hbefore (j + 1) y (by omega) hg)
          (fun j y hj hg => hafter (j + 1) y (by omega) hg)

/-- The mid-flush splice inserts strictly inside the unprocessed tail
(position in `(index, length]`) and keeps an id-sorted tail id-sorted. -/
theorem splice_keeps_tail_sorted (q : List SWatcher) (index : Nat)
    (w : SWatcher) (hlt : index < q.length) :
    index < spliceIdx q index w.id ∧ spliceIdx q index w.id ≤ q.length ∧
      ((q.drop (index + 1)).Pairwise (fun a b => a.id ≤ b.id) →
        ((insertAt (spliceIdx q index w.id) w q).drop (index + 1)).Pairwise
          (fun a b => a.id ≤ b.id)) := by
  have hq : spliceIdx q index w.id = spliceIdxAux q index w.id (q.length - 1) := by
    cases q with
    | nil => simp at hlt
    | cons a t => rfl
  have hidxle : index ≤ q.length - 1 := by omega
  obtain ⟨hb1, hb2⟩ := spliceIdxAux_bounds q index w.id (q.length - 1) hidxle
  have hple : spliceIdxAux q index w.id (q.length - 1) ≤ q.length := by omega
  rw [hq]
  set p := spliceIdxAux q index w.id (q.length - 1) with hp
  refine ⟨hb1, hple, ?_⟩
  intro hsorted
  rw [drop_insertAt (index + 1) p w q (by omega) (by omega)]
  apply insertAt_sorted w (q.drop (index + 1)) (p - (index + 1)) hsorted
  · -- elements of the tail before the insertion point have id ≤ w.id
    intro j x hj hg
    rcases spliceIdxAux_pred q index w.id (q.length - 1) hidxle with hpeq | hgt
    · rw [← hp] at hpeq
      omega
    · rw [← hp] at hgt
      have hgq : q.get? (index + 1 + j) = some x := by
        rw [← List.get?_drop]; exact hg
      have hxrange : index + 1 + j < q.length := by
        have := List.get?_eq_some.1 hgq
        exact this.choose
      have hp1range : p - 1 < q.length := by omega
      obtain ⟨hyval⟩ : ∃ h : p - 1 < q.length, True := ⟨hp1range, trivial⟩
      have hy : q.get? (p - 1) = some (q.get ⟨p - 1, hp1range⟩) :=
        List.get?_eq_get hp1range
      have hyle : (q.get ⟨p - 1, hp1range⟩).id ≤ w.id := by
        unfold idGtAt at hgt
        rw [hy] at hgt
        simpa using hgt
      -- lift along the sorted tail from position `j` to position `p-1`
      have hjlen : j < (q.drop (index + 1)).length := by
        rw [List.length_drop]; omega
      have hklen : p - 1 - (index + 1) < (q.drop (index + 1)).length := by
        rw [List.length_drop]; omega
      have hxget : (q.drop (index + 1)).get ⟨j, hjlen⟩ = x := by
        obtain ⟨h, hv⟩ := List.get?_eq_some.1 hg
        exact hv
      have hyget : (q.drop (index + 1)).get ⟨p - 1 - (index + 1), hklen⟩ =
          q.get ⟨p - 1, hp1range⟩ := by
        have := List.get?_drop q (index + 1) (p - 1 - (index + 1))
        rw [show index + 1 + (p - 1 - (index + 1)) = p - 1 by omega] at this
        rw [hy] at this
        obtain ⟨h, hv⟩ := List.get?_eq_some.1 this
        exact hv
      have := pairwise_id_le_get (q.drop (index + 1)) hsorted j
        (p - 1 - (index + 1)) hjlen hklen (by omega)
      rw [hxget, hyget] at this
      exact le_trans this hyle
  · -- elements of the tail from the insertion point on have id > w.id
    intro j x hj hg
    have hgq : q.get? (index + 1 + j) = some x := by
      rw [← List.get?_drop]; exact hg
    have hxrange : index + 1 + j < q.length := by
      have := List.get?_eq_some.1 hgq
      exact this.choose
    have hscan := spliceIdxAux_scanned q index w.id (q.length - 1)
      (index + 1 + j) (by omega) (by omega)
    unfold idGtAt at hscan
    rw [hgq] at hscan
    simpa using hscan

/-- Normal form of `queueWatcher` for arbitrary `Dep.target`. -/
theorem queueWatcher_eq (t : Option Nat) (x : SWatcher) (st : SchedState) :
    queueWatcher t x st =
      if st.has.contains x.id then st
      else if t == some x.id && x.noRecurse then st
      else
        { st with has := x.id :: st.has,
                  queue := if !st.flushing then st.queue ++ [x]
                           else insertAt (spliceIdx st.queue st.index x.id) x st.queue,
                  waiting := true } := by
  unfold queueWatcher
  by_cases hc : x.id ∈ st.has
  · simp [hc]
  · by_cases hg : t = some x.id ∧ x.noRecurse = true
    · simp [hc, hg]
    · cases hf : st.flushing <;> cases hw : st.waiting <;>
        simp [hc, hg, hf, hw]

theorem queueWatcher_flush_preserves (t : Option Nat) (x : SWatcher)
    (st : SchedState) (hidx : st.index < st.queue.length) :
    (queueWatcher t x st).index = st.index ∧
    (queueWatcher t x st).runs = st.runs ∧
    st.queue.length ≤ (queueWatcher t x st).queue.length ∧
    (queueWatcher t x st).queue.take (st.index + 1) =
      st.queue.take (st.index + 1) := by
  rw [queueWatcher_eq]
  by_cases hc : x.id ∈ st.has
  · simp [hc]
  · by_cases hg : t = some x.id ∧ x.noRecurse = true
    · simp [hc, hg]
    · rw [if_neg (by simpa using hc), if_neg (by simpa using hg)]
      cases hf : st.flushing with
      | false =>
        refine ⟨rfl, rfl, ?_, ?_⟩
        · simp
        · show (st.queue ++ [x]).take (st.index + 1) = st.queue.take (st.index + 1)
          exact List.take_append_of_le_length (by omega)
      | true =>
        obtain ⟨hb1, hb2, _⟩ := splice_keeps_tail_sorted st.queue st.index x hidx
        refine ⟨rfl, rfl, ?_, ?_⟩
        · simp [length_insertAt]
        · show (insertAt (spliceIdx st.queue st.index x.id) x st.queue).take
              (st.index + 1) = st.queue.take (st.index + 1)
          exact take_insertAt (st.index + 1) _ x st.queue (by omega) (by omega)

theorem foldl_queueWatcher_preserves (t : Option Nat) (l : List SWatcher) :
    ∀ st : SchedState, st.index < st.queue.length →
      (l.foldl (fun acc x => queueWatcher t x acc) st).index = st.index ∧
      (l.foldl (fun acc x => queueWatcher t x acc) st).runs = st.runs ∧
      st.queue.length ≤ (l.foldl (fun acc x => queueWatcher t x acc) st).queue.length ∧
      (l.foldl (fun acc x => queueWatcher t x acc) st).queue.take (st.index + 1) =
        st.queue.take (st.index + 1) := by
  induction l with
  | nil => intro st _; exact ⟨rfl, rfl, le_refl _, rfl⟩
  | cons x xs ih =>
    intro st hidx
    obtain ⟨h1, h2, h3, h4⟩ := queueWatcher_flush_preserves t x st hidx
    obtain ⟨g1, g2, g3, g4⟩ := ih (queueWatcher t x st) (by omega)
    rw [h1] at g1 g4
    exact ⟨g1, g2.trans h2, le_trans h3 g3, g4.trans h4⟩

theorem flushStep_take_inv (env : Nat → List SWatcher) (s s' : SchedState)
    (hlt : s.index < s.queue.length)
    (hinv : s.runs = s.queue.take s.index)
    (hstep : flushStep env s = (s', false)) :
    s'.runs = s'.queue.take s'.index ∧ s'.index = s.index + 1 := by
  have hget : s.queue.get? s.index = some (s.queue.get ⟨s.index, hlt⟩) :=
    List.get?_eq_get hlt
  set w := s.queue.get ⟨s.index, hlt⟩ with hw
  set s1 : SchedState := { s with has := s.has.filter (fun i => i != w.id),
                                  runs := s.runs ++ [w] } with hs1
  obtain ⟨f1, f2, f3, f4⟩ :=
    foldl_queueWatcher_preserves (some w.id) (env w.id) s1
      (by show s.index < s.queue.length; exact hlt)
  set s2 := (env w.id).foldl (fun st x => queueWatcher (some w.id) x st) s1
    with hs2
  have hstep2 : flushStep env s =
      (if s2.has.contains w.id then
        (if MAX_UPDATE_COUNT < getCirc s2.circular w.id + 1 then
          ({ s2 with
              circular := setCirc s2.circular w.id (getCirc s2.circular w.id + 1),
              warns := s2.warns ++ [w.id] }, true)
         else
          ({ s2 with
              circular := setCirc s2.circular w.id (getCirc s2.circular w.id + 1),
              index := s2.index + 1 }, false))
       else ({ s2 with index := s2.index + 1 }, false)) := by
    unfold flushStep
    rw [hget]
  rw [hstep2] at hstep
  have hruns2 : s2.runs = s.queue.take (s.index + 1) := by
    rw [f2]
    show s.runs ++ [w] = _
    rw [hinv, hw]
    rw [List.take_succ, List.getElem?_eq_getElem hlt]
    simp
  have htake2 : s2.queue.take (s.index + 1) = s.queue.take (s.index + 1) := by
    rw [f4]
  have hidx2 : s2.index = s.index := f1
  by_cases hc2 : s2.has.contains w.id = true
  · rw [if_pos hc2] at hstep
    by_cases hmax : MAX_UPDATE_COUNT < getCirc s2.circular w.id + 1
    · rw [if_pos hmax] at hstep
      exact absurd (congrArg Prod.snd hstep) (by simp)
    · rw [if_neg hmax] at hstep
      have hs' := (congrArg Prod.fst hstep).symm
      subst hs'
      refine ⟨?_, by simpa using hidx2⟩
      show s2.runs = s2.queue.take (s2.index + 1)
      rw [hruns2, hidx2, htake2]
  · rw [if_neg hc2] at hstep
    have hs' := (congrArg Prod.fst hstep).symm
    subst hs'
    refine ⟨?_, by simpa using hidx2⟩
    show s2.runs = s2.queue.take (s2.index + 1)
    rw [hruns2, hidx2, htake2]

/-- A flush loop that finishes without the recursion-guard break has run
every watcher in its final queue — including those spliced in mid-flush —
in queue order. -/
theorem flushLoop_runs_all (env : Nat → List SWatcher) :
    ∀ (fuel : Nat) (s s' : SchedState),
      s.runs = s.queue.take s.index →
      flushLoop env fuel s = some (s', false) →
      s'.runs = s'.queue := by
  intro fuel
  induction fuel with
  | zero => intro s s' _ h; exact absurd h (by simp [flushLoop])
  | succ fuel ih =>
    intro s s' hinv h
    unfold flushLoop at h
    by_cases hlt : s.index < s.queue.length
    · rw [if_pos hlt] at h
      rcases hstep : flushStep env s with ⟨s1, b⟩
      rw [hstep] at h
      cases b with
      | true => simp at h
      | false =>
        obtain ⟨hinv1, _⟩ := flushStep_take_inv env s s1 hlt hinv hstep
        exact ih s1 s' hinv1 h
    · rw [if_neg hlt] at h
      have hs : s = s' := by
        have := Option.some.inj h
        exact congrArg Prod.fst this
      subst hs
      rw [hinv]
      exact List.take_all_of_le (by omega)

/-- C3: within one flush, effects run in ascending creation-id order with
`post` effects after all non-`post` effects (the run log of a flush over a
pre-enqueued queue is sorted by `sortCompareFn`); an effect enqueued during
the flush is spliced into the remaining unprocessed tail — strictly after
the cursor — in id order (an id-sorted tail stays id-sorted); and a flush
loop that completes without the recursion-guard break has run every
watcher in its final queue, so a mid-flush enqueue that entered the queue
runs in the same flush, not a later one. -/
theorem C3_flush_order_and_midflush_splice :
    (∀ (ws : List SWatcher) (fuel : Nat) (r : SchedState × Bool),
        flushSchedulerQueue envNone fuel (enqueueAll ws initSched) = some r →
        r.1.runs.Pairwise (fun a b => schedLE a b = true)) ∧
    (∀ (q : List SWatcher) (index : Nat) (w : SWatcher), index < q.length →
        index < spliceIdx q index w.id ∧ spliceIdx q index w.id ≤ q.length ∧
        ((q.drop (index + 1)).Pairwise (fun a b => a.id ≤ b.id) →
          ((insertAt (spliceIdx q index w.id) w q).drop (index + 1)).Pairwise
            (fun a b => a.id ≤ b.id))) ∧
    (∀ (env : Nat → List SWatcher) (fuel : Nat) (s s' : SchedState),
        s.runs = s.queue.take s.index →
        flushLoop env fuel s = some (s', false) →
        s'.runs = s'.queue) := by
  refine ⟨?_, fun q index w hlt => splice_keeps_tail_sorted q index w hlt,
    fun env fuel s s' hinv h => flushLoop_runs_all env fuel s s' hinv h⟩
  intro ws fuel r h
  obtain ⟨hinv, hruns, hwarns, _, _⟩ :=
    enqueueAll_spec ws initSched ⟨rfl, by simp [initSched], by simp [initSched]⟩
  obtain ⟨hb, hr, hw⟩ := flushSchedulerQueue_envNone _ fuel r h
  rw [hr, hruns]
  show (([] : List SWatcher) ++ sortQueue (enqueueAll ws initSched).queue).Pairwise _
  rw [List.nil_append]
  exact sortQueue_sorted _

/-- Witness for C3 at concrete inputs: a flush of ids `2`, `1(post)`, `3`
runs them as `2, 3, 1`; a mid-flush splice of id `3` into `[1, 5]` at
cursor 0 lands at position 1 keeping the tail id-sorted; and the flush
that enqueues id `3` while running id `1` still executes its whole final
queue. -/
theorem C3_flush_order_and_midflush_splice_witness :
    (∃ r, flushSchedulerQueue envNone 10
        (enqueueAll [⟨2, false, false⟩, ⟨1, true, false⟩, ⟨3, false, false⟩]
          initSched) = some r ∧
      r.1.runs.Pairwise (fun a b => schedLE a b = true)) ∧
    (0 < spliceIdx [⟨1, false, false⟩, ⟨5, false, false⟩] 0 3 ∧
      ((insertAt (spliceIdx [⟨1, false, false⟩, ⟨5, false, false⟩] 0 3)
          ⟨3, false, false⟩ [⟨1, false, false⟩, ⟨5, false, false⟩]).drop
          1).Pairwise (fun a b => a.id ≤ b.id)) ∧
    (∃ s', flushLoop (fun j => if j == 1 then [⟨3, false, false⟩] else []) 10
        ⟨[⟨1, false, false⟩, ⟨5, false, false⟩], [1, 5], [], true, true, 0,
          [], []⟩ = some (s', false) ∧ s'.runs = s'.queue) := by
  refine ⟨?_, ?_, ?_⟩
  · exact ⟨(⟨[], [], [], false, false, 0,
        [⟨2, false, false⟩, ⟨3, false, false⟩, ⟨1, true, false⟩], []⟩, false),
      by decide,
      C3_flush_order_and_midflush_splice.1
        [⟨2, false, false⟩, ⟨1, true, false⟩, ⟨3, false, false⟩] 10 _ (by decide)⟩
  · obtain ⟨h1, _, h3⟩ := C3_flush_order_and_midflush_splice.2.1
      [⟨1, false, false⟩, ⟨5, false, false⟩] 0 ⟨3, false, false⟩ (by decide)
    exact ⟨h1, h3 (by decide)⟩
  · exact ⟨⟨[⟨1, false, false⟩, ⟨3, false, false⟩, ⟨5, false, false⟩], [], [],
        true, true, 3,
        [⟨1, false, false⟩, ⟨3, false, false⟩, ⟨5, false, false⟩], []⟩,
      by decide,
      C3_flush_order_and_midflush_splice.2.2
        (fun j => if j == 1 then [⟨3, false, false⟩] else []) 10
        ⟨[⟨1, false, false⟩, ⟨5, false, false⟩], [1, 5], [], true, true, 0,
          [], []⟩
        ⟨[⟨1, false, false⟩, ⟨3, false, false⟩, ⟨5, false, false⟩], [], [],
          true, true, 3,
          [⟨1, false, false⟩, ⟨3, false, false⟩, ⟨5, false, false⟩], []⟩
        (by decide) (by decide)⟩

/-! ## The virtual-DOM reconciler (`patch.ts`, via `createPatchFunction`)

The embedding covers the patch function produced for a backend with an
empty module list (`cbs` holds no hooks) and vnodes whose `data` carries no
`hook` object — the per-concern module hooks and component `init`/
`prepatch` hooks only add side channels that the claims do not observe.
Situations that would dereference `undefined` in JavaScript or enter
unmodelled subsystems (async-placeholder hydration, component
instantiation) yield `none`.

`VNodeCore` carries the `VNode` fields the reconciler reads; `vid` is the
JavaScript object identity (reference equality `a === b` iff equal `vid`);
`elm` is the id of the materialized DOM node; `hasData`/`attrsType` encode
`data` presence and `data.attrs.type`; `asyncFactory` is the identity of
the async factory function and `asyncFactoryError` whether its `error`
field is defined.  Children are an optional list (`undefined` vs an
array).

The DOM is a map from container id to its ordered child-id list, together
with a fresh-id allocator and a ghost log of the node operations
performed. -/

structure VNodeCore : Type where
  vid : Nat
  key : Option Nat
  tag : Option String
  isComment : Bool
  hasData : Bool
  attrsType : Option String
  text : Option String
  elm : Option Nat
  isStatic : Bool
  isCloned : Bool
  isOnce : Bool
  isAsyncPlaceholder : Bool
  asyncFactory : Option Nat
  asyncFactoryError : Bool
  componentInstance : Option Nat
deriving DecidableEq, Repr

inductive MVNode : Type where
  | node : VNodeCore → Option (List MVNode) → MVNode

def MVNode.core : MVNode → VNodeCore
  | .node c _ => c

def MVNode.children : MVNode → Option (List MVNode)
  | .node _ ch => ch

def MVNode.setElm (v : MVNode) (e : Option Nat) : MVNode :=
  .node { v.core with elm := e } v.children

def MVNode.setChildren (v : MVNode) (ch : Option (List MVNode)) : MVNode :=
  .node v.core ch

def MVNode.setComponentInstance (v : MVNode) (ci : Option Nat) : MVNode :=
  .node { v.core with componentInstance := ci } v.children

/-- `cloneVNode` (vnode module): a shallow clone with a fresh identity.
The constructor re-runs, so `componentInstance` and `isAsyncPlaceholder`
reset and `isOnce` is *not* carried over; `isCloned` is set; `elm`,
`isStatic`, `key`, `isComment`, children (a sliced array with the same
element objects) and the async factory are carried over. -/
def cloneVNode (v : MVNode) (newVid : Nat) : MVNode :=
  .node { v.core with vid := newVid, isCloned := true, isOnce := false,
                      isAsyncPlaceholder := false, componentInstance := none }
    v.children

/-- The JavaScript value of `isDef(a.data) && isDef(a.data.attrs) &&
a.data.attrs.type`: `false` when `data` is absent, `undefined` when the
attrs chain stops, else the type string. -/
inductive TypeVal : Type where
  | fls : TypeVal
  | undefined : TypeVal
  | str : String → TypeVal
deriving DecidableEq, Repr

def inputTypeOf (v : MVNode) : TypeVal :=
  if v.core.hasData then
    match v.core.attrsType with
    | none => .undefined
    | some s => .str s
  else .fls

/-- `isTextInputType` (web platform util): membership of
`text,number,password,search,email,tel,url`; false on the non-string
values `false`/`undefined`. -/
def isTextInput : TypeVal → Bool
  | .str s =>
    ["text", "number", "password", "search", "email", "tel", "url"].contains s
  | _ => false

/-- `sameInputType(a, b)`. -/
def sameInputType (a b : MVNode) : Bool :=
  if a.core.tag != some "input" then true
  else (inputTypeOf a == inputTypeOf b) ||
    (isTextInput (inputTypeOf a) && isTextInput (inputTypeOf b))

/-- `sameVnode(a, b)`.  In the last clause the source reads
`b.asyncFactory.error`; the modelled universe only forms async
placeholders with a factory present, so the flag suffices. -/
def sameVnode (a b : MVNode) : Bool :=
  a.core.key == b.core.key &&
  a.core.asyncFactory == b.core.asyncFactory &&
  ((a.core.tag == b.core.tag && a.core.isComment == b.core.isComment &&
    a.core.hasData == b.core.hasData && sameInputType a b) ||
   (a.core.isAsyncPlaceholder && !b.core.asyncFactoryError))

/-! ### The DOM model and node operations -/

inductive DomOp : Type where
  | createElement (tag : String) (elm : Nat)
  | createTextNode (text : Option String) (elm : Nat)
  | createComment (text : Option String) (elm : Nat)
  | insertBefore (parent elm : Nat) (ref : Option Nat)
  | appendChild (parent elm : Nat)
  | removeChild (parent elm : Nat)
  | setTextContent (elm : Nat) (text : String)
deriving DecidableEq, Repr

structure MDom : Type where
  nextId : Nat
  lists : List (Nat × List Nat)
  ops : List DomOp
deriving DecidableEq, Repr

def setListFn (ls : List (Nat × List Nat)) (p : Nat) (v : List Nat) :
    List (Nat × List Nat) :=
  match ls with
  | [] => [(p, v)]
  | (k, x) :: t => if k == p then (p, v) :: t else (k, x) :: setListFn t p v

def MDom.childList (d : MDom) (p : Nat) : List Nat :=
  (d.lists.lookup p).getD []

def MDom.setChildList (d : MDom) (p : Nat) (v : List Nat) : MDom :=
  { d with lists := setListFn d.lists p v }

/-- Detach an element from whatever container holds it (a DOM node has at
most one parent; moving via `insertBefore`/`appendChild` implies removal
from the old position). -/
def detachLists (ls : List (Nat × List Nat)) (e : Nat) :
    List (Nat × List Nat) :=
  ls.map (fun kv => (kv.1, kv.2.filter (fun x => x != e)))

/-- `nodeOps.parentNode`. -/
def parentNodeOf (d : MDom) (e : Nat) : Option Nat :=
  (d.lists.find? (fun kv => kv.2.contains e)).map (fun kv => kv.1)

def insertBeforeList : List Nat → Nat → Nat → List Nat
  | [], e, _ => [e]
  | x :: xs, e, r => if x == r then e :: x :: xs else x :: insertBeforeList xs e r

/-- `nodeOps.insertBefore(parent, elm, ref)`; a `none` ref appends (DOM
`insertBefore(node, null)`).  A ref that is not a child of `parent` would
throw in the DOM; the verified runs only pass valid refs. -/
def nodeInsertBefore (d : MDom) (p e : Nat) (ref : Option Nat) : MDom :=
  let d1 : MDom := { d with lists := detachLists d.lists e }
  let cl := d1.childList p
  let cl2 := match ref with
    | none => cl ++ [e]
    | some r => insertBeforeList cl e r
  { d1.setChildList p cl2 with ops := d.ops ++ [.insertBefore p e ref] }

/-- `nodeOps.appendChild`. -/
def nodeAppendChild (d : MDom) (p e : Nat) : MDom :=
  let d1 : MDom := { d with lists := detachLists d.lists e }
  { d1.setChildList p (d1.childList p ++ [e]) with
    ops := d.ops ++ [.appendChild p e] }

/-- `nodeOps.removeChild`. -/
def nodeRemoveChild (d : MDom) (p e : Nat) : MDom :=
  { d.setChildList p ((d.childList p).filter (fun x => x != e)) with
    ops := d.ops ++ [.removeChild p e] }

def nextAfter : List Nat → Nat → Option Nat
  | [], _ => none
  | x :: xs, e => if x == e then xs.head? else nextAfter xs e

/-- `nodeOps.nextSibling`. -/
def nextSiblingOf (d : MDom) (e : Nat) : Option Nat :=
  match parentNodeOf d e with
  | none => none
  | some p => nextAfter (d.childList p) e

def nodeCreateElement (d : MDom) (tag : String) : Nat × MDom :=
  (d.nextId, { nextId := d.nextId + 1,
               lists := setListFn d.lists d.nextId [],
               ops := d.ops ++ [.createElement tag d.nextId] })

def nodeCreateTextNode (d : MDom) (text : Option String) : Nat × MDom :=
  (d.nextId, { nextId := d.nextId + 1,
               lists := setListFn d.lists d.nextId [],
               ops := d.ops ++ [.createTextNode text d.nextId] })

def nodeCreateComment (d : MDom) (text : Option String) : Nat × MDom :=
  (d.nextId, { nextId := d.nextId + 1,
               lists := setListFn d.lists d.nextId [],
               ops := d.ops ++ [.createComment text d.nextId] })

def nodeSetTextContent (d : MDom) (e : Nat) (t : String) : MDom :=
  { d with ops := d.ops ++ [.setTextContent e t] }

/-- `removeNode(el)`: a no-op when the element has already lost its
parent. -/
def removeNode (d : MDom) (e : Nat) : MDom :=
  match parentNodeOf d e with
  | some p => nodeRemoveChild d p e
  | none => d

/-- The `insert(parent, elm, ref)` helper of `createPatchFunction`. -/
def insertHelper (d : MDom) (parent : Option Nat) (e : Nat)
    (ref : Option Nat) : MDom :=
  match parent with
  | none => d
  | some p =>
    match ref with
    | some r => if parentNodeOf d r == some p then nodeInsertBefore d p e (some r)
                else d
    | none => nodeAppendChild d p e

/-! ### Index helpers (the diff walks with JavaScript integers that can go
to `-1`, so indices are `Int`) -/

def getI {α : Type} (l : List α) (i : Int) : Option α :=
  if i < 0 then none else l.get? i.toNat

def setI {α : Type} (l : List α) (i : Int) (a : α) : List α :=
  if i < 0 then l else l.set i.toNat a

/-- `oldCh[i]` where moved slots hold `undefined`. -/
def slotAt (l : List (Option MVNode)) (i : Int) : Option MVNode :=
  (getI l i).join

/-- `removeVnodes(vnodes, startIdx, endIdx)`: with an empty module set,
`removeAndInvokeRemoveHook` reduces to `removeNode(vnode.elm)` and
`invokeDestroyHook` runs no hooks, for element and text vnodes alike;
nulled slots are skipped. -/
def removeVnodesGo (vnodes : List (Option MVNode)) :
    Int → Nat → MDom → MDom
  | _, 0, d => d
  | startIdx, n + 1, d =>
    let d1 := match slotAt vnodes startIdx with
      | none => d
      | some ch =>
        match ch.core.elm with
        | some e => removeNode d e
        | none => d
    removeVnodesGo vnodes (startIdx + 1) n d1

def removeVnodes (d : MDom) (vnodes : List (Option MVNode))
    (startIdx endIdx : Int) : MDom :=
  removeVnodesGo vnodes startIdx (endIdx + 1 - startIdx).toNat d

def setAssocI : List (Nat × Int) → Nat → Int → List (Nat × Int)
  | [], k, v => [(k, v)]
  | (a, b) :: t, k, v => if a == k then (k, v) :: t else (a, b) :: setAssocI t k v

def lookupAssocI (m : List (Nat × Int)) (k : Nat) : Option Int :=
  m.lookup k

/-- `createKeyToOldIdx(children, beginIdx, endIdx)` (inclusive end); later
entries overwrite earlier ones as JavaScript map assignment does. -/
def ckGo (children : List (Option MVNode)) :
    Int → Nat → List (Nat × Int) → List (Nat × Int)
  | _, 0, m => m
  | i, n + 1, m =>
    let m2 := match slotAt children i with
      | some v =>
        match v.core.key with
        | some k => setAssocI m k i
        | none => m
      | none => m
    ckGo children (i + 1) n m2

def createKeyToOldIdx (children : List (Option MVNode))
    (beginIdx endIdx : Int) : List (Nat × Int) :=
  ckGo children beginIdx (endIdx + 1 - beginIdx).toNat []

/-- `findIdxInOld(node, oldCh, start, end)`: scan `start ≤ i < end` — the
end bound is exclusive. -/
def fioGo (node : MVNode) (oldCh : List (Option MVNode)) :
    Int → Nat → Option Int
  | _, 0 => none
  | i, n + 1 =>
    match slotAt oldCh i with
    | some c => if sameVnode node c then some i else fioGo node oldCh (i + 1) n
    | none => fioGo node oldCh (i + 1) n

def findIdxInOld (node : MVNode) (oldCh : List (Option MVNode))
    (start endI : Int) : Option Int :=
  fioGo node oldCh start (endI - start).toNat

/-! ### `createElm` / `patchVnode` / `updateChildren`

Mutually recursive on an explicit fuel (`none` = fuel exhausted or an
out-of-model situation, see the module comment).  `owner` stands for
`isDef(ownerArray)`: the caller passes the containing array, and the
(possibly cloned/patched) vnode is returned and written back by the
caller, mirroring `ownerArray[index] = vnode` plus in-place mutation. -/

mutual

/-- `createElm(vnode, q, parentElm, refElm, nested, ownerArray, index)`.
`createComponent` is a no-op in the modelled universe (no `data.hook`),
except that a vnode already carrying a `componentInstance` would enter
component paths — out of model (`none`). -/
def createElm : Nat → MVNode → Option Nat → Option Nat → Bool → MDom →
    Option (MVNode × MDom)
  | 0, _, _, _, _, _ => none
  | fuel + 1, vnode0, parentElm, refElm, owner, d0 =>
    let vd : MVNode × MDom :=
      if vnode0.core.elm.isSome && owner then
        (cloneVNode vnode0 d0.nextId, { d0 with nextId := d0.nextId + 1 })
      else (vnode0, d0)
    let vnode := vd.1
    let d := vd.2
    if vnode.core.hasData && vnode.core.componentInstance.isSome then none
    else
      match vnode.core.tag with
      | some tag =>
        let ed := nodeCreateElement d tag
        let e := ed.1
        let d1 := ed.2
        let vnode1 := vnode.setElm (some e)
        -- setScope: no scoped-CSS context in the modelled universe
        match vnode1.children with
        | some ch =>
          match createList fuel ch e d1 with
          | none => none
          | some (ch2, d2) =>
            -- invokeCreateHooks: empty module set, no data hooks
            some (vnode1.setChildren (some ch2),
              insertHelper d2 parentElm e refElm)
        | none =>
          let d2 := if vnode1.core.text.isSome then
              let td := nodeCreateTextNode d1 vnode1.core.text
              nodeAppendChild td.2 e td.1
            else d1
          some (vnode1, insertHelper d2 parentElm e refElm)
      | none =>
        if vnode.core.isComment then
          let ed := nodeCreateComment d vnode.core.text
          some (vnode.setElm (some ed.1),
            insertHelper ed.2 parentElm ed.1 refElm)
        else
          let ed := nodeCreateTextNode d vnode.core.text
          some (vnode.setElm (some ed.1),
            insertHelper ed.2 parentElm ed.1 refElm)

/-- `createChildren`'s loop over an array of children (each child created
with the parent element, no ref, `nested := true`, owned by the array). -/
def createList : Nat → List MVNode → Nat → MDom → Option (List MVNode × MDom)
  | 0, _, _, _ => none
  | _ + 1, [], _, d => some ([], d)
  | fuel + 1, v :: vs, p, d =>
    match createElm fuel v (some p) none true d with
    | none => none
    | some (v2, d2) =>
      match createList fuel vs p d2 with
      | none => none
      | some (vs2, d3) => some (v2 :: vs2, d3)

/-- `addVnodes(parentElm, refElm, vnodes, startIdx, endIdx, q)`: `count`
iterations from `startIdx` (zero when the range is empty). -/
def addVnodesGo : Nat → List MVNode → Int → Nat → Nat → Option Nat → MDom →
    Option (List MVNode × MDom)
  | 0, _, _, _, _, _, _ => none
  | _ + 1, vnodes, _, 0, _, _, d => some (vnodes, d)
  | fuel + 1, vnodes, startIdx, c + 1, parentElm, refElm, d =>
    match getI vnodes startIdx with
    | none => none
    | some v =>
      match createElm fuel v (some parentElm) refElm true d with
      | none => none
      | some (v2, d2) =>
        addVnodesGo fuel (setI vnodes startIdx v2) (startIdx + 1) c
          parentElm refElm d2

/-- `patchVnode(oldVnode, vnode, q, ownerArray, index, removeOnly)`. -/
def patchVnode : Nat → MVNode → MVNode → Bool → Bool → MDom →
    Option (MVNode × MDom)
  | 0, _, _, _, _, _ => none
  | fuel + 1, old, vnode0, owner, removeOnly, d0 =>
    if old.core.vid == vnode0.core.vid then some (vnode0, d0)
    else
      let vd : MVNode × MDom :=
        if vnode0.core.elm.isSome && owner then
          (cloneVNode vnode0 d0.nextId, { d0 with nextId := d0.nextId + 1 })
        else (vnode0, d0)
      let vnode := vd.1
      let d := vd.2
      match old.core.elm with
      | none => none
      | some elm =>
        let vnode1 := vnode.setElm (some elm)
        if old.core.isAsyncPlaceholder then none
        else
          if vnode1.core.isStatic && old.core.isStatic &&
              vnode1.core.key == old.core.key &&
              (vnode1.core.isCloned || vnode1.core.isOnce) then
            some (vnode1.setComponentInstance old.core.componentInstance, d)
          else
            -- prepatch / module update / data.hook.update: absent here
            if vnode1.core.text.isNone then
              match old.children, vnode1.children with
              | some oldList, some chList =>
                -- `oldCh !== ch` array identity: the same array object was
                -- passed again iff the element identities coincide
                if oldList.map (fun c => c.core.vid) =
                    chList.map (fun c => c.core.vid) then
                  some (vnode1, d)
                else
                  match updateChildren fuel elm (oldList.map some) chList
                      removeOnly d with
                  | none => none
                  | some (_, chList2, d2) =>
                    some (vnode1.setChildren (some chList2), d2)
              | none, some chList =>
                -- dev duplicate-key check: diagnostic only
                let d1 := if old.core.text.isSome then
                    nodeSetTextContent d elm "" else d
                match addVnodesGo fuel chList 0 chList.length elm none d1 with
                | none => none
                | some (chList2, d2) =>
                  some (vnode1.setChildren (some chList2), d2)
              | some oldList, none =>
                some (vnode1,
                  removeVnodes d (oldList.map some) 0
                    ((oldList.length : Int) - 1))
              | none, none =>
                if old.core.text.isSome then
                  some (vnode1, nodeSetTextContent d elm "")
                else some (vnode1, d)
            else
              if old.core.text != vnode1.core.text then
                some (vnode1,
                  nodeSetTextContent d elm (vnode1.core.text.getD ""))
              else some (vnode1, d)

/-- `updateChildren(parentElm, oldCh, newCh, q, removeOnly)` (entry: the
dev duplicate-key check is diagnostic only). -/
def updateChildren : Nat → Nat → List (Option MVNode) → List MVNode →
    Bool → MDom → Option (List (Option MVNode) × List MVNode × MDom)
  | 0, _, _, _, _, _ => none
  | fuel + 1, parentElm, oldCh, newCh, removeOnly, d =>
    updLoop fuel parentElm oldCh newCh 0 ((oldCh.length : Int) - 1) 0
      ((newCh.length : Int) - 1) none removeOnly d

/-- The four-pointer loop of `updateChildren`, including the trailing
bulk-insert / bulk-remove after the loop. -/
def updLoop : Nat → Nat → List (Option MVNode) → List MVNode →
    Int → Int → Int → Int → Option (List (Nat × Int)) → Bool → MDom →
    Option (List (Option MVNode) × List MVNode × MDom)
  | 0, _, _, _, _, _, _, _, _, _, _ => none
  | fuel + 1, parentElm, oldCh, newCh, oldStartIdx, oldEndIdx, newStartIdx,
      newEndIdx, keyMap, removeOnly, d =>
    if oldStartIdx ≤ oldEndIdx ∧ newStartIdx ≤ newEndIdx then
      match slotAt oldCh oldStartIdx with
      | none =>
        -- vnode has been moved left
        updLoop fuel parentElm oldCh newCh (oldStartIdx + 1) oldEndIdx
          newStartIdx newEndIdx keyMap removeOnly d
      | some oldStartVnode =>
        match slotAt oldCh oldEndIdx with
        | none =>
          updLoop fuel parentElm oldCh newCh oldStartIdx (oldEndIdx - 1)
            newStartIdx newEndIdx keyMap removeOnly d
        | some oldEndVnode =>
          match getI newCh newStartIdx, getI newCh newEndIdx with
          | some newStartVnode, some newEndVnode =>
            if sameVnode oldStartVnode newStartVnode then
              match patchVnode fuel oldStartVnode newStartVnode true false d with
              | none => none
              | some (nv, d2) =>
                updLoop fuel parentElm oldCh (setI newCh newStartIdx nv)
                  (oldStartIdx + 1) oldEndIdx (newStartIdx + 1) newEndIdx
                  keyMap removeOnly d2
            else if sameVnode oldEndVnode newEndVnode then
              match patchVnode fuel oldEndVnode newEndVnode true false d with
              | none => none
              | some (nv, d2) =>
                updLoop fuel parentElm oldCh (setI newCh newEndIdx nv)
                  oldStartIdx (oldEndIdx - 1) newStartIdx (newEndIdx - 1)
                  keyMap removeOnly d2
            else if sameVnode oldStartVnode newEndVnode then
              -- vnode moved right
              match patchVnode fuel oldStartVnode newEndVnode true false d with
              | none => none
              | some (nv, d2) =>
                match oldStartVnode.core.elm, oldEndVnode.core.elm with
                | some se, some ee =>
                  let d3 := if removeOnly then d2
                    else nodeInsertBefore d2 parentElm se (nextSiblingOf d2 ee)
                  updLoop fuel parentElm oldCh (setI newCh newEndIdx nv)
                    (oldStartIdx + 1) oldEndIdx newStartIdx (newEndIdx - 1)
                    keyMap removeOnly d3
                | _, _ => none
            else if sameVnode oldEndVnode newStartVnode then
              -- vnode moved left
              match patchVnode fuel oldEndVnode newStartVnode true false d with
              | none => none
              | some (nv, d2) =>
                match oldEndVnode.core.elm, oldStartVnode.core.elm with
                | some ee, some se =>
                  let d3 := if removeOnly then d2
                    else nodeInsertBefore d2 parentElm ee (some se)
                  updLoop fuel parentElm oldCh (setI newCh newStartIdx nv)
                    oldStartIdx (oldEndIdx - 1) (newStartIdx + 1) newEndIdx
                    keyMap removeOnly d3
                | _, _ => none
            else
              -- no positional match
              let keyMap2 := match keyMap with
                | some m => some m
                | none => some (createKeyToOldIdx oldCh oldStartIdx oldEndIdx)
              let idxInOld : Option Int := match newStartVnode.core.key with
                | some k => lookupAssocI (keyMap2.getD []) k
                | none => findIdxInOld newStartVnode oldCh oldStartIdx oldEndIdx
              match idxInOld with
              | none =>
                -- new element
                match createElm fuel newStartVnode (some parentElm)
                    oldStartVnode.core.elm true d with
                | none => none
                | some (nv, d2) =>
                  updLoop fuel parentElm oldCh (setI newCh newStartIdx nv)
                    oldStartIdx oldEndIdx (newStartIdx + 1) newEndIdx keyMap2
                    removeOnly d2
              | some idx =>
                match slotAt oldCh idx with
                | none => none   -- stale map entry (duplicate keys) dereferences undefined
                | some vnodeToMove =>
                  if sameVnode vnodeToMove newStartVnode then
                    match patchVnode fuel vnodeToMove newStartVnode true false d with
                    | none => none
                    | some (nv, d2) =>
                      match vnodeToMove.core.elm, oldStartVnode.core.elm with
                      | some me, some se =>
                        let d3 := if removeOnly then d2
                          else nodeInsertBefore d2 parentElm me (some se)
                        updLoop fuel parentElm (setI oldCh idx none)
                          (setI newCh newStartIdx nv) oldStartIdx oldEndIdx
                          (newStartIdx + 1) newEndIdx keyMap2 removeOnly d3
                      | _, _ => none
                  else
                    -- same key but different element: treat as new element
                    match createElm fuel newStartVnode (some parentElm)
                        oldStartVnode.core.elm true d with
                    | none => none
                    | some (nv, d2) =>
                      updLoop fuel parentElm oldCh (setI newCh newStartIdx nv)
                        oldStartIdx oldEndIdx (newStartIdx + 1) newEndIdx
                        keyMap2 removeOnly d2
          | _, _ => none
    else
      if oldStartIdx > oldEndIdx then
        let refElm : Option Nat := match getI newCh (newEndIdx + 1) with
          | none => none
          | some v => v.core.elm
        match addVnodesGo fuel newCh newStartIdx
            (newEndIdx + 1 - newStartIdx).toNat parentElm refElm d with
        | none => none
        | some (newCh2, d2) => some (oldCh, newCh2, d2)
      else if newStartIdx > newEndIdx then
        some (oldCh, newCh, removeVnodes d oldCh oldStartIdx oldEndIdx)
      else some (oldCh, newCh, d)

end

/-! ### Concrete reconciliation scenarios -/

/-- A mounted keyed `div` child: identity `vid`, key `k`, materialized
handle `e`. -/
def keyedOld (vid k e : Nat) : MVNode :=
  .node ⟨vid, some k, some "div", false, true, none, none, some e,
    false, false, false, false, none, false, none⟩ none

/-- A freshly rendered keyed `div` child (no handle yet). -/
def keyedNew (vid k : Nat) : MVNode :=
  .node ⟨vid, some k, some "div", false, true, none, none, none,
    false, false, false, false, none, false, none⟩ none

/-- The container for the C1 rotation: parent element 100 holding the
three materialized children 10, 20, 30. -/
def rotDom : MDom := ⟨200, [(100, [10, 20, 30])], []⟩

/-- C1: diffing old children `[a(key=1)@10, b(key=2)@20, c(key=3)@30]`
against new children `[c(key=3), a(key=1), b(key=2)]` reuses all three
materialized nodes — the new children end up carrying the old handles
`30, 10, 20`, no node is destroyed or created (the operation log holds no
`removeChild`/`createElement`) — and the only applied operation is the
single move `insertBefore(parent, 30, ref 10)`, after which the child
order is the rotation `[30, 10, 20]`. -/
theorem C1_keyed_rotation_reuses_all_nodes :
    (updateChildren 20 100
        ([keyedOld 1 1 10, keyedOld 2 2 20, keyedOld 3 3 30].map some)
        [keyedNew 13 3, keyedNew 11 1, keyedNew 12 2] false rotDom).map
      (fun r => (r.2.1.map (fun v => v.core.elm), r.2.2.ops,
        r.2.2.childList 100)) =
    some ([some 30, some 10, some 20],
      [.insertBefore 100 30 (some 10)],
      [30, 10, 20]) := by
  rfl

theorem core_setElm (v : MVNode) (e : Option Nat) :
    (v.setElm e).core = { v.core with elm := e } := by
  cases v; rfl

theorem children_setElm (v : MVNode) (e : Option Nat) :
    (v.setElm e).children = v.children := by
  cases v; rfl

theorem core_setComponentInstance (v : MVNode) (ci : Option Nat) :
    (v.setComponentInstance ci).core = { v.core with componentInstance := ci } := by
  cases v; rfl

/-- C6: patching two static nodes with equal keys where the new node is
cloned or once-rendered carries the old materialized handle over by
reference and returns before any child traversal: the DOM state (and its
operation log) is returned untouched and the children are not visited. -/
theorem C6_static_reuse_fast_path (old new : MVNode) (d : MDom)
    (fuel : Nat) (owner removeOnly : Bool)
    (hvid : old.core.vid ≠ new.core.vid)
    (helmNew : new.core.elm = none)
    (helmOld : old.core.elm.isSome = true)
    (hasync : old.core.isAsyncPlaceholder = false)
    (hstaticN : new.core.isStatic = true)
    (hstaticO : old.core.isStatic = true)
    (hkey : new.core.key = old.core.key)
    (hcloned : new.core.isCloned = true ∨ new.core.isOnce = true) :
    patchVnode (fuel + 1) old new owner removeOnly d =
      some ((new.setElm old.core.elm).setComponentInstance
        old.core.componentInstance, d) := by
  obtain ⟨e, he⟩ := Option.isSome_iff_exists.1 helmOld
  have hbeq : (old.core.vid == new.core.vid) = false := by
    simp [hvid]
  have hclone : (new.core.elm.isSome && owner) = false := by
    simp [helmNew]
  have hkeyb : (new.core.key == old.core.key) = true := by
    simp [hkey]
  have hco : (new.core.isCloned || new.core.isOnce) = true := by
    rcases hcloned with h | h <;> simp [h]
  unfold patchVnode
  simp only [hbeq, Bool.false_eq_true, if_false, hclone, he, hasync,
    hstaticN, hstaticO, hkeyb, hco, core_setElm, children_setElm,
    core_setComponentInstance, Bool.true_and, Bool.and_true, Bool.and_self,
    Bool.true_or, Bool.or_true, ite_true, ite_false, if_true]

/-- Witness for C6 at concrete nodes: the old static node has a child and
a handle (5); the new cloned static node has a different child; the patch
reuses handle 5 and performs no DOM operation. -/
theorem C6_static_reuse_fast_path_witness :
    patchVnode 4
      (.node ⟨1, some 9, some "div", false, true, none, none, some 5,
        true, false, false, false, none, false, none⟩
        (some [keyedOld 4 4 6]))
      (.node ⟨2, some 9, some "div", false, true, none, none, none,
        true, true, false, false, none, false, none⟩
        (some [keyedNew 14 8]))
      false false ⟨300, [(99, [5])], []⟩ =
    some ((((.node ⟨2, some 9, some "div", false, true, none, none, none,
        true, true, false, false, none, false, none⟩
        (some [keyedNew 14 8]) : MVNode).setElm (some 5)).setComponentInstance
        none), ⟨300, [(99, [5])], []⟩) :=
  C6_static_reuse_fast_path
    (.node ⟨1, some 9, some "div", false, true, none, none, some 5,
      true, false, false, false, none, false, none⟩ (some [keyedOld 4 4 6]))
    (.node ⟨2, some 9, some "div", false, true, none, none, none,
      true, true, false, false, none, false, none⟩ (some [keyedNew 14 8]))
    ⟨300, [(99, [5])], []⟩ 3 false false
    (by decide) rfl rfl rfl rfl rfl rfl (Or.inl rfl)

/-! ### C10: the `findIdxInOld` exclusive end bound -/

/-- Old children for the C10 scenario: an unkeyed `p` (handle 1) and an
unkeyed `span` (handle 2) inside parent 50. -/
def c10OldP : MVNode :=
  .node ⟨1, none, some "p", false, true, none, none, some 1,
    false, false, false, false, none, false, none⟩ none

def c10OldS : MVNode :=
  .node ⟨2, none, some "span", false, true, none, none, some 2,
    false, false, false, false, none, false, none⟩ none

/-- New children: an unkeyed `span` (whose only compatible old counterpart
is `c10OldS`, sitting at the old end position) followed by an unkeyed
`ul` with no counterpart. -/
def c10NewS : MVNode :=
  .node ⟨11, none, some "span", false, true, none, none, none,
    false, false, false, false, none, false, none⟩ none

def c10NewU : MVNode :=
  .node ⟨12, none, some "ul", false, true, none, none, none,
    false, false, false, false, none, false, none⟩ none

def c10Dom : MDom := ⟨100, [(50, [1, 2])], []⟩

/-- C10 counterexample: the new `span` is unkeyed and its only
`sameVnode`-compatible old counterpart sits at the current `oldEnd`
position (index 1), yet the diff *reuses* it — the new `span` ends up with
the old handle 2, the operation log creates no `span` (only the `ul` is
created fresh), and the first operation is the positional
`oldEnd ≈ newStart` move of handle 2 — contradicting "created fresh rather
than reused". -/
theorem C10_counterexample_oldEnd_match_is_reused :
    sameVnode c10NewS c10OldS = true ∧
    sameVnode c10NewS c10OldP = false ∧
    (updateChildren 20 50 [some c10OldP, some c10OldS] [c10NewS, c10NewU]
        false c10Dom).map
      (fun r => (r.2.2.ops, r.2.1.map (fun v => v.core.elm),
        r.2.2.childList 50)) =
    some ([.insertBefore 50 2 (some 1),
           .createElement "ul" 100,
           .insertBefore 50 100 (some 1),
           .removeChild 50 1],
      [some 2, some 100], [2, 100]) := by
  exact ⟨rfl, rfl, rfl⟩

theorem fioGo_bounds (node : MVNode) (oldCh : List (Option MVNode)) :
    ∀ (n : Nat) (i0 i : Int), fioGo node oldCh i0 n = some i →
      i0 ≤ i ∧ i < i0 + n := by
  intro n
  induction n with
  | zero => intro i0 i h; exact absurd h (by simp [fioGo])
  | succ n ih =>
    intro i0 i h
    unfold fioGo at h
    cases hs : slotAt oldCh i0 with
    | none =>
      simp only [hs] at h
      have := ih (i0 + 1) i h
      constructor <;> omega
    | some c =>
      simp only [hs] at h
      by_cases hsv : sameVnode node c = true
      · rw [if_pos hsv] at h
        have : i0 = i := Option.some.inj h
        subst this
        constructor <;> omega
      · rw [if_neg hsv] at h
        have := ih (i0 + 1) i h
        constructor <;> omega

/-- C10 (amended): the fallback's `findIdxInOld` does scan from `oldStart`
up to but excluding `oldEnd` (every hit lies in `[start, end)`); however,
an unkeyed new child whose only compatible old counterpart sits at the
current `oldEnd` never reaches the fallback — the preceding
`sameVnode(oldEndVnode, newStartVnode)` positional check reuses it (the
old handle is carried over and no fresh node is created for it). -/
theorem C10_amended_exclusive_bound_and_positional_reuse :
    (∀ (node : MVNode) (oldCh : List (Option MVNode)) (start endI i : Int),
        findIdxInOld node oldCh start endI = some i → start ≤ i ∧ i < endI) ∧
    (updateChildren 20 50 [some c10OldP, some c10OldS] [c10NewS, c10NewU]
        false c10Dom).map
      (fun r => ((r.2.2.ops.countP (fun op => match op with
          | .createElement t _ => t == "span"
          | _ => false)),
        r.2.2.ops.head?,
        (r.2.2.childList 50).head?)) =
    some (0, some (.insertBefore 50 2 (some 1)), some 2) := by
  constructor
  · intro node oldCh start endI i h
    unfold findIdxInOld at h
    have hb := fioGo_bounds node oldCh (endI - start).toNat start i h
    by_cases hse : start ≤ endI
    · have : ((endI - start).toNat : Int) = endI - start :=
        Int.toNat_of_nonneg (by omega)
      constructor
      · exact hb.1
      · omega
    · have h0 : (endI - start).toNat = 0 := by omega
      rw [h0] at h
      exact absurd h (by simp [fioGo])
  · rfl

/-- Witness for C10 (amended) at a concrete input: looking the new `span`
up across both old children (`end = 2`) finds index 1 — inside the
exclusive bound. -/
theorem C10_amended_exclusive_bound_witness :
    (0 : Int) ≤ 1 ∧ (1 : Int) < 2 :=
  C10_amended_exclusive_bound_and_positional_reuse.1 c10NewS
    [some c10OldP, some c10OldS] 0 2 1 rfl

end VueStudy
